import Mathlib

/-!
Shallow embedding of the regional analytics dashboard core
(src/store.py, src/analytics.py, src/routes.py).

Datasets are modelled as ordered rows of cells over a named column list.
A cell is a scalar as it appears in a pandas object column: missing (NaN/None),
a number, or a string.  Numeric coercion (pd.to_numeric errors="coerce"),
pandas groupby key ordering (numbers first, then strings, then the missing
group — the `safe_sort` mixed-type order used by groupby sort=True), the
reductions sum/mean/min/max/count and the stable descending value sort
(kind="mergesort" — modelled by a stable insertion sort, which computes the
same permutation as any stable sort) are embedded faithfully from the source.
-/

/- Core marks the rational arithmetic operations irreducible, which blocks
definitional evaluation of the embedded analytics on concrete datasets;
restore the default reducibility for this file. -/
attribute [local semireducible] Rat.add Rat.mul Rat.sub Rat.inv

namespace RAD

/-- A scalar cell of a tabular dataset: missing value, number, or string. -/
inductive Cell where
  | null : Cell
  | num (q : ℚ) : Cell
  | str (s : String) : Cell
deriving DecidableEq, Repr

/-- Parse an unsigned run of decimal digits. -/
def digitsVal : List Char → Option ℕ
  | [] => none
  | l => l.foldl (fun acc c => match acc with
      | none => none
      | some n => if c.isDigit then some (n * 10 + (c.toNat - '0'.toNat)) else none)
      (some 0)

/-- Numeric parse of a string, modelling the strings `pd.to_numeric` accepts:
an optional sign, an integer part, and an optional fractional part.
(Exponent forms are not modelled; no claim depends on them.) -/
def parseRat (s : String) : Option ℚ :=
  let chars := s.data
  let (sgn, rest) : ℚ × List Char :=
    match chars with
    | '-' :: r => (-1, r)
    | '+' :: r => (1, r)
    | r => (1, r)
  match rest.splitOn '.' with
  | [ip] => (digitsVal ip).map (fun n => sgn * n)
  | [ip, fp] =>
      match digitsVal ip, digitsVal fp with
      | some n, some f => some (sgn * (n + (f : ℚ) / (10 ^ fp.length)))
      | _, _ => none
  | _ => none

/-- `pd.to_numeric(..., errors="coerce")` on a single cell: numbers pass
through, parseable strings become numbers, everything else becomes missing. -/
def toNumeric : Cell → Option ℚ
  | .null => none
  | .num q => some q
  | .str s => parseRat s

/-- Code-point lexicographic comparison of character lists — Python's
string `<`. -/
def charListLTb : List Char → List Char → Bool
  | _, [] => false
  | [], _ :: _ => true
  | a :: as, b :: bs => if a = b then charListLTb as bs else decide (a < b)

/-- Python's string `<` (code-point lexicographic). -/
def strLTb (a b : String) : Bool := charListLTb a.data b.data

/-- Strict order on groupby keys, as produced by pandas `groupby(sort=True)`
via `safe_sort`: numbers ascending, then strings ascending (code-point
lexicographic), with the missing-value group last (`dropna=False`). -/
def keyLTb : Cell → Cell → Bool
  | .num a, .num b => decide (a < b)
  | .num _, .str _ => true
  | .num _, .null => true
  | .str _, .num _ => false
  | .str a, .str b => strLTb a b
  | .str _, .null => true
  | .null, _ => false

/-! ### A stable insertion sort

`sort_values(..., kind="mergesort")` requests a stable sort; every stable
sort computes the same permutation, so we embed it as the stable insertion
sort below and prove sortedness and stability for it. -/

/-- Insert `x` after every element strictly before it (`lt y x`), and before
the first element that is not — so `x` lands after all its ties. -/
def insLt (lt : α → α → Bool) (x : α) : List α → List α
  | [] => [x]
  | y :: ys => if lt y x then y :: insLt lt x ys else x :: y :: ys

/-- Stable sort by the strict order `lt`: earlier elements are inserted last,
so ties keep their input order. -/
def sortLt (lt : α → α → Bool) (l : List α) : List α :=
  l.foldr (insLt lt) []

/-! ### groupby

`df.groupby(key, dropna=False)` forms one group per distinct key value
(the missing-value group included) and, with the default `sort=True`,
emits the groups in sorted key order; rows keep their input order inside
each group. -/

/-- Append a key to the accumulator unless already present. -/
def insertNew [DecidableEq κ] (acc : List κ) (k : κ) : List κ :=
  if k ∈ acc then acc else acc ++ [k]

/-- The distinct values of a list, in first-seen order. -/
def firstSeen [DecidableEq κ] (l : List κ) : List κ :=
  l.foldl insertNew []

/-- One sorted group per distinct key, each holding its rows in input order. -/
def groupsBy [DecidableEq κ] (lt : κ → κ → Bool) (keyOf : ρ → κ) (rows : List ρ) :
    List (κ × List ρ) :=
  (sortLt lt (firstSeen (rows.map keyOf))).map
    (fun k => (k, rows.filter (fun r => decide (keyOf r = k))))

/-! ### Aggregation reductions (`.agg(agg)` on a grouped column)

The five reductions named by the spec.  On a numeric-dtype column
(every cell a number or missing — the dtype pandas infers when no string
is present) each reduction skips missing values; on an object-dtype column
the reductions behave as pandas does there: `count` counts the non-missing
cells whatever they are, `sum`/`min`/`max` work on homogeneous values and
raise on mixed ones (modelled as `none`), and `mean` raises. -/

inductive Agg where
  | sum | mean | min | max | count
deriving DecidableEq, Repr

/-- The string the engine receives for the reduction (`agg=` parameter). -/
def aggName : Agg → String
  | .sum => "sum" | .mean => "mean" | .min => "min" | .max => "max" | .count => "count"

def Cell.isNum : Cell → Bool
  | .num _ => true | _ => false

def Cell.isStr : Cell → Bool
  | .str _ => true | _ => false

/-- True when a cell would live in a numeric pandas column: number or missing. -/
def Cell.numOrNull : Cell → Bool
  | .str _ => false | _ => true

/-- The numbers of a cell list. -/
def cellNums (cells : List Cell) : List ℚ :=
  cells.filterMap (fun c => match c with | .num q => some q | _ => none)

/-- The strings of a cell list. -/
def cellStrs (cells : List Cell) : List String :=
  cells.filterMap (fun c => match c with | .str s => some s | _ => none)

/-- A reduction over a group of a numeric-dtype column (missing skipped,
empty sum is 0, empty mean/min/max is missing, count counts non-missing). -/
def aggNumeric : Agg → List Cell → Cell
  | .sum, cells => .num (cellNums cells).sum
  | .mean, cells =>
      match cellNums cells with
      | [] => .null
      | x :: r => .num ((x :: r).sum / ((x :: r).length : ℚ))
  | .min, cells =>
      match cellNums cells with
      | [] => .null
      | x :: r => .num (r.foldl Min.min x)
  | .max, cells =>
      match cellNums cells with
      | [] => .null
      | x :: r => .num (r.foldl Max.max x)
  | .count, cells => .num ((cellNums cells).length : ℚ)

/-- A reduction over a group of an object-dtype column. -/
def aggObject : Agg → List Cell → Option Cell
  | .count, cells => some (.num (((cells.filter (fun c => decide (c ≠ .null))).length : ℚ)))
  | .sum, cells =>
      let nn := cells.filter (fun c => decide (c ≠ .null))
      if nn.all Cell.isNum then some (.num (cellNums nn).sum)
      else if nn.all Cell.isStr then some (.str ((cellStrs nn).foldl (· ++ ·) ""))
      else none
  | .mean, _ => none
  | .min, cells =>
      let nn := cells.filter (fun c => decide (c ≠ .null))
      match nn with
      | [] => some .null
      | _ =>
        if nn.all Cell.isNum then
          match cellNums nn with
          | [] => none
          | x :: r => some (.num (r.foldl Min.min x))
        else if nn.all Cell.isStr then
          match cellStrs nn with
          | [] => none
          | x :: r => some (.str (r.foldl Min.min x))
        else none
  | .max, cells =>
      let nn := cells.filter (fun c => decide (c ≠ .null))
      match nn with
      | [] => some .null
      | _ =>
        if nn.all Cell.isNum then
          match cellNums nn with
          | [] => none
          | x :: r => some (.num (r.foldl Max.max x))
        else if nn.all Cell.isStr then
          match cellStrs nn with
          | [] => none
          | x :: r => some (.str (r.foldl Max.max x))
        else none

/-- `grouped[value_col].agg(agg)` on one group, the dtype of the whole
column deciding which semantics apply. -/
def pandasAgg (numericD : Bool) (agg : Agg) (cells : List Cell) : Option Cell :=
  if numericD then some (aggNumeric agg cells) else aggObject agg cells

/-! ### The tabular dataset and `region_aggregate` -/

/-- A tabular dataset: ordered rows over a named column list
(`pd.DataFrame` as the analytics code sees it). -/
structure Df where
  cols : List String
  rows : List (List Cell)
deriving DecidableEq, Repr

deriving instance DecidableEq for Except

/-- Errors the embedded code can raise, by Python exception (HTTP codes for
the route layer's rejections). -/
inductive Err where
  | validationError (missing : List String)
  | valueError
  | typeError
  | attributeError
  | indexError
  | keyError (dataset_id : String)
  | http400
  | http422
deriving DecidableEq, Repr

/-- Index of a column name (rows are read positionally at this index). -/
def colIdx (df : Df) (c : String) : ℕ := df.cols.indexOf c

/-- Read one cell of a row by column index; short rows read as missing. -/
def cellAt (r : List Cell) (i : ℕ) : Cell := r.getD i .null

/-- The cell of column `c` in row `r` of `df`. -/
def rowCell (df : Df) (c : String) (r : List Cell) : Cell := cellAt r (colIdx df c)

/-- All cells of one column, top to bottom (the column whose dtype pandas
infers before grouping). -/
def colCells (df : Df) (c : String) : List Cell := df.rows.map (rowCell df c)

/-- `_require_columns`: the required columns absent from the dataset. -/
def missingCols (df : Df) (cs : List String) : List String :=
  cs.filter (fun c => decide (c ∉ df.cols))

/-- Apply a fallible function to every element; `none` anywhere models the
underlying pandas reduction raising. -/
def mapOpt (f : α → Option β) : List α → Option (List β)
  | [] => some []
  | x :: xs =>
      match f x, mapOpt f xs with
      | some y, some ys => some (y :: ys)
      | _, _ => none

/-- Descending order on aggregated value, strict — the `sort_values("value",
ascending=False, kind="mergesort")` comparison. -/
def valueLTb : Cell × ℚ → Cell × ℚ → Bool :=
  fun a b => decide (b.2 < a.2)

/-- `analytics.region_aggregate` (src/analytics.py:21-43) for the default
`lat_col=None, lon_col=None` (the coordinate merge touches only the optional
`lat`/`lon` fields and never the `region`/`value` ones).  Groups by the raw
region value with the missing group kept, reduces the raw value column with
`agg`, coerces the reduced values to numeric, drops the groups whose reduced
value is not numeric, and sorts by value descending with a stable sort.
`region_col = value_col` makes pandas `reset_index` raise a ValueError
(duplicate column insertion), embedded as the error branch. -/
def aggGroups (df : Df) (region_col : String) : List (Cell × List (List Cell)) :=
  groupsBy keyLTb (rowCell df region_col) df.rows

/-- The `(key, raw reduced value)` pairs of
`df.groupby(region_col, dropna=False)[value_col].agg(agg)`. -/
def reducedPairs (df : Df) (region_col value_col : String) (agg : Agg) :
    Option (List (Cell × Cell)) :=
  mapOpt
    (fun g => (pandasAgg ((colCells df value_col).all Cell.numOrNull) agg
        (g.2.map (rowCell df value_col))).map (fun c => (g.1, c)))
    (aggGroups df region_col)

/-- `pd.to_numeric(grouped["value"], errors="coerce")` followed by
`dropna(subset=["value"])`. -/
def keptPairs (red : List (Cell × Cell)) : List (Cell × ℚ) :=
  red.filterMap (fun p => (toNumeric p.2).map (fun q => (p.1, q)))

def region_aggregate (df : Df) (region_col value_col : String) (agg : Agg) :
    Except Err (List (Cell × ℚ)) :=
  match missingCols df [region_col, value_col] with
  | [] =>
    if region_col = value_col then .error .valueError
    else
      match reducedPairs df region_col value_col agg with
      | none => .error .typeError
      | some red => .ok (sortLt valueLTb (keptPairs red))
  | missing => .error (.validationError missing)

/-! ### The claim-side reduction for C1

The spec sentence behind C1 says the rows whose value fails numeric coercion
are dropped first and the reduction is applied to the surviving numbers.
This definition follows those words (not the code) so the two can be
compared. -/

/-- Reduction over the coercible values only, as claim C1 words it:
sum/count of the empty survivor list are 0, mean/min/max of it undefined. -/
def specReduce : Agg → List ℚ → Option ℚ
  | .sum, xs => some xs.sum
  | .mean, xs =>
      match xs with
      | [] => none
      | x :: r => some ((x :: r).sum / ((x :: r).length : ℚ))
  | .min, xs =>
      match xs with
      | [] => none
      | x :: r => some (r.foldl Min.min x)
  | .max, xs =>
      match xs with
      | [] => none
      | x :: r => some (r.foldl Max.max x)
  | .count, xs => some ((xs.length : ℚ))

/-! ### `rankings` -/

/-- The output unit of aggregation and ranking (src/analytics.py:9-12). -/
structure RegionValue where
  region : String
  value : ℚ
deriving DecidableEq, Repr

/-- Python `str(...)` on a region cell when building a `RegionValue`.
Strings pass through (the case the data and all claims exercise); numeric
and missing keys get a simple decimal/NaN rendering. -/
def cellStr : Cell → String
  | .str s => s
  | .num q => if q.den = 1 then toString q.num else toString q
  | .null => "nan"

/-- `analytics.rankings` (src/analytics.py:46-61): aggregate, convert rows
to `RegionValue`s, take the first `max 0 top_n` as `top`, and as `bottom`
the reversed last `max 0 top_n` (`values[-k:]` reversed) — empty when
`top_n ≤ 0`. -/
def rankings (df : Df) (region_col value_col : String) (agg : Agg) (top_n : ℤ) :
    Except Err (List RegionValue × List RegionValue) :=
  (region_aggregate df region_col value_col agg).map (fun out =>
    let values := out.map (fun p => RegionValue.mk (cellStr p.1) p.2)
    let k := (max 0 top_n).toNat
    let top := values.take k
    let bottom := if 0 < top_n then (values.drop (values.length - k)).reverse else []
    (top, bottom))

/-! ### `executive_summary` and its display formatting -/

/-- Insert a comma after every third digit of a reversed digit string. -/
def commaRev : List Char → List Char
  | a :: b :: c :: d :: rest => a :: b :: c :: ',' :: commaRev (d :: rest)
  | l => l

/-- Zero-pad a digit string on the left to the given width. -/
def padZeros (w : ℕ) (s : String) : String :=
  String.mk (List.replicate (w - s.length) '0') ++ s

/-- Python fixed-point formatting (`f"{x:,.2f}"` and `f"{x:.1f}"`): round to
`prec` decimal places and render, with thousands separators when `comma`.
(Python rounds binary floats half-to-even; the claims only format values
whose rounding is exact, where every rounding rule agrees.) -/
def fmtFixed (prec : ℕ) (comma : Bool) (q : ℚ) : String :=
  let n : ℤ := round (q * (10 : ℚ) ^ prec)
  let sign := if n < 0 then "-" else ""
  let m := n.natAbs
  let ip := m / 10 ^ prec
  let fp := m % 10 ^ prec
  let ipDigits := toString ip
  let ipStr := if comma then String.mk ((commaRev ipDigits.data.reverse).reverse) else ipDigits
  let fpStr := if prec = 0 then "" else "." ++ padZeros prec (toString fp)
  sign ++ ipStr ++ fpStr

/-- The `pct` closure of `executive_summary` (src/analytics.py:128-129):
percentage of the grand total, defined as zero when the total is zero. -/
def pctOf (total v : ℚ) : ℚ := if total = 0 then 0 else v / total * 100

/-- First key finding (src/analytics.py:132), `p` the formatted percentage. -/
def topFindingStr (region : String) (value : ℚ) (metric : String) (p : ℚ) : String :=
  "Top region: " ++ region ++ " (" ++ fmtFixed 2 true value ++ " " ++ metric ++ ", "
    ++ fmtFixed 1 false p ++ "% of total)."

/-- Second key finding (src/analytics.py:133). -/
def bottomFindingStr (region : String) (value : ℚ) (metric : String) (p : ℚ) : String :=
  "Bottom region: " ++ region ++ " (" ++ fmtFixed 2 true value ++ " " ++ metric ++ ", "
    ++ fmtFixed 1 false p ++ "% of total)."

/-- Third key finding (src/analytics.py:134). -/
def totalFindingStr (total : ℚ) (metric : String) : String :=
  "Total across regions: " ++ fmtFixed 2 true total ++ " " ++ metric ++ "."

/-- The one-sentence summary (src/analytics.py:144). -/
def summaryStr (bestRegion metric aggn worstRegion : String) : String :=
  bestRegion ++ " leads on " ++ metric ++ " (" ++ aggn ++ "), while "
    ++ worstRegion ++ " lags."

/-- The fixed summary for an empty aggregation (src/analytics.py:115-120). -/
def noDataSummary : String :=
  "No analyzable data after validation (missing/invalid numeric values)."

/-- Python dict assignment `d[k] = v`: update in place or append. -/
def dictSet (m : List (String × β)) (k : String) (v : β) : List (String × β) :=
  if (m.lookup k).isSome then m.map (fun p => if p.1 = k then (k, v) else p)
  else m ++ [(k, v)]

/-- Python `d.setdefault(k, v)`: keep an existing entry, else append. -/
def dictSetdefault (m : List (String × β)) (k : String) (v : β) : List (String × β) :=
  if (m.lookup k).isSome then m else m ++ [(k, v)]

/-- The dict `executive_summary` returns: summary sentence, three key
findings, and the region comparison mapping each region named in top or
bottom to its `(label, formatted value)` entry. -/
structure ExecSummary where
  summary : String
  key_findings : List String
  regional_comparison : List (String × (String × String))
deriving DecidableEq, Repr

/-- `analytics.executive_summary` (src/analytics.py:102-147): aggregate;
on an empty aggregation return the fixed no-data result; otherwise total
the values, rank, take `best = top[0]` (an IndexError when `top` is empty)
and `worst = bottom[0] if bottom else top[-1]`, and build the findings. -/
def executive_summary (df : Df) (metric region_col value_col : String) (agg : Agg)
    (top_n : ℤ) : Except Err ExecSummary :=
  (region_aggregate df region_col value_col agg).bind (fun agg_df =>
    if agg_df = [] then
      .ok ⟨noDataSummary, [], []⟩
    else
      let total := (agg_df.map Prod.snd).sum
      (rankings df region_col value_col agg top_n).bind (fun tb =>
        match tb.1 with
        | [] => .error .indexError
        | best :: rest =>
            let worst :=
              match tb.2 with
              | w :: _ => w
              | [] => (best :: rest).getLastD best
            let kf := [topFindingStr best.region best.value metric (pctOf total best.value),
                       bottomFindingStr worst.region worst.value metric (pctOf total worst.value),
                       totalFindingStr total metric]
            let label := metric ++ "_" ++ aggName agg
            let rc0 := (best :: rest).foldl
              (fun m rv => dictSet m rv.region (label, fmtFixed 2 true rv.value)) []
            let rc := tb.2.foldl
              (fun m rv => dictSetdefault m rv.region (label, fmtFixed 2 true rv.value)) rc0
            .ok ⟨summaryStr best.region metric (aggName agg) worst.region, kf, rc⟩))

/-! ### The dataset store and routes -/

/-- Metadata snapshot of a stored dataset (src/store.py:11-16). -/
structure DatasetMeta where
  dataset_id : String
  name : String
  rows : ℕ
  columns : List String
deriving DecidableEq, Repr

/-- The store's state: the `_data` and `_names` registries
(src/store.py:28-31).  The instance lock serializes operations, so each is
modelled as one atomic step on this state. -/
structure Store where
  data : List (String × Df)
  names : List (String × String)
deriving DecidableEq, Repr

def emptyStore : Store := ⟨[], []⟩

/-- `DatasetStore.put_dataframe` (src/store.py:53-64).  The fresh
`uuid4().hex[:12]` identifier is passed in as `dataset_id` (uuid uniqueness
is outside the model); `reset_index(drop=True)` is the identity on the
row-list representation. -/
def put_dataframe (st : Store) (dataset_id : String) (df : Df) (name : Option String) :
    DatasetMeta × Store :=
  let nm := name.getD dataset_id
  (⟨dataset_id, nm, df.rows.length, df.cols⟩,
   ⟨dictSet st.data dataset_id df, dictSet st.names dataset_id nm⟩)

/-- Union of record keys in first-seen order (`pd.DataFrame.from_records`
column inference). -/
def recordCols (records : List (List (String × Cell))) : List String :=
  records.foldl (fun acc r => (r.map Prod.fst).foldl insertNew acc) []

/-- `pd.DataFrame.from_records` on a list of dict-like records: columns are
the union of keys in first-seen order and a record's absent keys read as
missing values. -/
def from_records (records : List (List (String × Cell))) : Df :=
  let cols := recordCols records
  ⟨cols, records.map (fun r => cols.map (fun c => ((r.lookup c).getD .null)))⟩

/-- `DatasetStore.put_records` (src/store.py:66-68). -/
def put_records (st : Store) (dataset_id : String) (records : List (List (String × Cell)))
    (name : Option String) : DatasetMeta × Store :=
  put_dataframe st dataset_id (from_records records) name

/-- `DatasetStore.get` (src/store.py:47-51): a KeyError on unknown ids. -/
def storeGet (st : Store) (dataset_id : String) : Except Err Df :=
  match st.data.lookup dataset_id with
  | some df => .ok df
  | none => .error (.keyError dataset_id)

/-- Route `POST /datasets/json`, `ingest_json` (src/routes.py:42-47): an
empty record list is rejected with HTTP 400 before the store is touched. -/
def ingest_json (st : Store) (dataset_id : String) (records : List (List (String × Cell)))
    (name : Option String) : Except Err (DatasetMeta × Store) :=
  if records = [] then .error .http400
  else .ok (put_records st dataset_id records name)

/-- Route `GET /analytics/executive-summary` (src/routes.py:164-184):
FastAPI validates `top_n` against `Query(3, ge=1, le=10)` (HTTP 422 on
violation) before the handler runs; the handler looks the dataset up (404
on a missing id, embedded as the KeyError passing through) and calls
`executive_summary`. -/
def analytics_executive_summary_route (st : Store)
    (dataset_id metric region_col value_col : String) (agg : Agg) (top_n : ℤ) :
    Except Err ExecSummary :=
  if top_n < 1 ∨ 10 < top_n then .error .http422
  else (storeGet st dataset_id).bind (fun df =>
    executive_summary df metric region_col value_col agg top_n)

/-! ### `trends` -/

/-- Days of a calendar month (Gregorian, as pandas timestamps use). -/
def daysInMonth (y m : ℕ) : ℕ :=
  if m = 2 then (if y % 4 = 0 ∧ (y % 100 ≠ 0 ∨ y % 400 = 0) then 29 else 28)
  else if m = 4 ∨ m = 6 ∨ m = 9 ∨ m = 11 then 30
  else 31

/-- The calendar-date layout `pd.to_datetime` receives in this API's data:
an ISO `YYYY-MM-DD` string with a valid month and day.  Other accepted
pandas layouts (timestamps with a time component, numeric epochs) are not
modelled; no claim depends on them. -/
def parseDate (s : String) : Option (ℕ × ℕ × ℕ) :=
  match s.data with
  | [y1, y2, y3, y4, '-', m1, m2, '-', d1, d2] =>
      (match digitsVal [y1, y2, y3, y4], digitsVal [m1, m2], digitsVal [d1, d2] with
      | some y, some m, some d =>
          if 1 ≤ m ∧ m ≤ 12 ∧ 1 ≤ d ∧ d ≤ daysInMonth y m then some (y, m, d) else none
      | _, _, _ => none)
  | _ => none

/-- `pd.to_datetime(..., errors="coerce", utc=True)` on one cell. -/
def cellDate : Cell → Option (ℕ × ℕ × ℕ)
  | .str s => parseDate s
  | _ => none

/-- Render a date as `str(datetime.date)` does: zero-padded ISO. -/
def isoDateStr (y m d : ℕ) : String :=
  padZeros 4 (toString y) ++ "-" ++ padZeros 2 (toString m) ++ "-" ++ padZeros 2 (toString d)

/-- Ascending order on month buckets `(year, month)`. -/
def bucketLTb : ℕ × ℕ → ℕ × ℕ → Bool :=
  fun a b => decide (a.1 < b.1) || (decide (a.1 = b.1) && decide (a.2 < b.2))

/-- Ascending order on the composite `(bucket, region)` groupby key. -/
def trendKeyLTb : (ℕ × ℕ) × Cell → (ℕ × ℕ) × Cell → Bool :=
  fun a b => bucketLTb a.1 b.1 || (decide (a.1 = b.1) && keyLTb a.2 b.2)

/-- One output row of `trends`. -/
structure TrendRow where
  date : String
  region : Cell
  value : ℚ
deriving DecidableEq, Repr

/-- The `sort_values(["date", "region"])` comparison: ascending `(date,
region)` with missing regions last. -/
def trendRowLTb : TrendRow → TrendRow → Bool :=
  fun a b => strLTb a.date b.date || (decide (a.date = b.date) && keyLTb a.region b.region)

/-- `sort_values` succeeds on an object column iff the comparable values are
homogeneous (all numeric or all strings, missing allowed); mixed values make
the comparison raise. -/
def sortHomogeneous (cells : List Cell) : Bool :=
  cells.all Cell.numOrNull || cells.all (fun c => ! c.isNum)

/-- The column names of the `trends` output frame, tracked through the two
renames (`{region_col: "region", value_col: "value"}`, then
`{date_col: "__bucket__"}`), as in src/analytics.py:90-96. -/
def trendsNames (date_col region_col value_col : String) : List String :=
  let ns1 := [date_col, region_col, value_col].map
    (fun n => if n = region_col then "region" else if n = value_col then "value" else n)
  ns1.map (fun n => if n = date_col then "__bucket__" else n)

/-- The rows surviving date and numeric coercion, as
`((month bucket, region), value)` triples. -/
def trendParsed (df : Df) (date_col region_col value_col : String) :
    List (((ℕ × ℕ) × Cell) × ℚ) :=
  df.rows.filterMap (fun r =>
    match cellDate (rowCell df date_col r), toNumeric (rowCell df value_col r) with
    | some ymd, some v => some (((ymd.1, ymd.2.1), rowCell df region_col r), v)
    | _, _ => none)

/-- Group the parsed rows by `(bucket, region)` and reduce; the value column
is numeric dtype after its `to_numeric` coercion, so the numeric reduction
semantics apply and a non-numeric reduced value is impossible. -/
def trendReduced (df : Df) (date_col region_col value_col : String) (agg : Agg) :
    Option (List (((ℕ × ℕ) × Cell) × ℚ)) :=
  mapOpt (fun g =>
      match pandasAgg true agg (g.2.map (fun t => Cell.num t.2)) with
      | some (.num q) => some (g.1, q)
      | _ => none)
    (groupsBy trendKeyLTb Prod.fst (trendParsed df date_col region_col value_col))

/-- Render one reduced group as an output row: the month-end calendar date
string (`out[bucket].dt.date.astype(str)` of the `Grouper("ME")` label),
the region, and the reduced value. -/
def trendRowOf (p : ((ℕ × ℕ) × Cell) × ℚ) : TrendRow :=
  TrendRow.mk (isoDateStr p.1.1.1 p.1.1.2 (daysInMonth p.1.1.1 p.1.1.2)) p.1.2 p.2

/-- `analytics.trends` (src/analytics.py:64-99) at the month frequency
(`freq="M"` normalized to `"ME"`, the route's default; other frequency
aliases run the same pipeline with a different bucket rule and are not
embedded).  Select the three columns (duplicate selections not modelled),
coerce dates and values dropping failures, bucket by calendar month
labelled with the month-end timestamp, group by `(bucket, region)` in
sorted order, reduce, rename, select `__bucket__` (an AttributeError when
the rename made that name ambiguous, since `out[...]` then yields a frame
without `.dt`), render the ISO date, drop the bucket and sort by
`(date, region)`.  The result carries the final column names and the rows. -/
def trends (df : Df) (date_col region_col value_col : String) (agg : Agg)
    (freq : String) : Except Err (List String × List TrendRow) :=
  match missingCols df [date_col, region_col, value_col] with
  | [] =>
    if date_col = region_col ∨ date_col = value_col ∨ region_col = value_col then
      .error .valueError
    else if freq ≠ "M" ∧ freq ≠ "ME" then .error .valueError
    else
      match trendReduced df date_col region_col value_col agg with
      | none => .error .typeError
      | some reducedT =>
          if (trendsNames date_col region_col value_col).count "__bucket__" ≠ 1 then
            .error .attributeError
          else if sortHomogeneous (reducedT.map (fun p => p.1.2)) then
            .ok ((trendsNames date_col region_col value_col).filter
                  (fun n => decide (n ≠ "__bucket__")) ++ ["date"],
                 sortLt trendRowLTb (reducedT.map trendRowOf))
          else .error .typeError
  | missing => .error (.validationError missing)


/-! ### Concrete datasets exercising the claims -/

def dfCount : Df := ⟨["r", "v"], [[.str "A", .num 1], [.str "A", .str "abc"]]⟩

def dfTie : Df := ⟨["r", "v"], [[.str "B", .num 5], [.str "A", .num 5]]⟩

def dfABC : Df := ⟨["r", "v"], [[.str "A", .num 5], [.str "B", .num 3], [.str "C", .num 2]]⟩

def dfZero : Df := ⟨["r", "v"], [[.str "A", .num 0], [.str "B", .num 0]]⟩

def dfTrend : Df := ⟨["date", "r", "v"],
  [[.str "2025-01-05", .str "A", .num 100],
   [.str "2025-02-03", .str "A", .num 150],
   [.str "2025-01-20", .str "B", .num 90]]⟩

def dfCollide : Df := ⟨["value", "r", "v2"], [[.str "2025-01-05", .str "A", .num 1]]⟩

def store1 : Store := ⟨[("d", dfABC)], [("d", "demo")]⟩

/-- The rows of `df` grouped under region key `k` (used to state C1). -/
def groupRows (df : Df) (region_col : String) (k : Cell) : List (List Cell) :=
  df.rows.filter (fun r => decide (rowCell df region_col r = k))

theorem perm_insLt (lt : α → α → Bool) (x : α) (l : List α) :
    List.Perm (insLt lt x l) (x :: l) := by
  induction l with
  | nil => simp [insLt]
  | cons y ys ih =>
      by_cases h : lt y x
      · simp only [insLt, h, if_true]
        exact ((ih.cons y).trans (List.Perm.swap x y ys))
      · simp [insLt, h]

theorem perm_sortLt (lt : α → α → Bool) (l : List α) :
    List.Perm (sortLt lt l) l := by
  induction l with
  | nil => simp [sortLt]
  | cons x xs ih =>
      simpa [sortLt] using (perm_insLt lt x (sortLt lt xs)).trans (ih.cons x)

theorem mem_sortLt (lt : α → α → Bool) (l : List α) (a : α) :
    a ∈ sortLt lt l ↔ a ∈ l :=
  (perm_sortLt lt l).mem_iff

theorem pairwise_insLt
    (lt : α → α → Bool)
    (hasym : ∀ a b, lt a b = true → lt b a = false)
    (htr : ∀ a b c, lt b a = false → lt c b = false → lt c a = false)
    (x : α) (l : List α)
    (hl : l.Pairwise (fun a b => lt b a = false)) :
    (insLt lt x l).Pairwise (fun a b => lt b a = false) := by
  induction l with
  | nil => simp [insLt]
  | cons y ys ih =>
      rcases List.pairwise_cons.mp hl with ⟨hy, hys⟩
      by_cases h : lt y x
      · simp only [insLt, h, if_true]
        refine List.pairwise_cons.mpr ⟨?_, ih hys⟩
        intro z hz
        have hz' : z ∈ x :: ys := (perm_insLt lt x ys).mem_iff.mp hz
        rcases List.mem_cons.mp hz' with rfl | hzys
        · exact hasym _ _ h
        · exact hy z hzys
      · have hxy : lt y x = false := by
          simpa using h
        simp only [insLt, h, if_false]
        refine List.pairwise_cons.mpr ⟨?_, hl⟩
        intro z hz
        rcases List.mem_cons.mp hz with rfl | hzys
        · exact hxy
        · exact htr x y z hxy (hy z hzys)

theorem pairwise_sortLt
    (lt : α → α → Bool)
    (hasym : ∀ a b, lt a b = true → lt b a = false)
    (htr : ∀ a b c, lt b a = false → lt c b = false → lt c a = false)
    (l : List α) :
    (sortLt lt l).Pairwise (fun a b => lt b a = false) := by
  induction l with
  | nil => simp [sortLt]
  | cons x xs ih =>
      simpa [sortLt] using pairwise_insLt lt hasym htr x (sortLt lt xs) ih

/-- Stability: a relation that only constrains ties survives insertion. -/
theorem pairwise_insLt_stable
    (lt : α → α → Bool) (K : α → α → Prop)
    (x : α) (l : List α)
    (hl : l.Pairwise (fun a b => lt a b = false → lt b a = false → K a b))
    (hx : ∀ z ∈ l, lt x z = false → lt z x = false → K x z) :
    (insLt lt x l).Pairwise (fun a b => lt a b = false → lt b a = false → K a b) := by
  induction l with
  | nil => simp [insLt]
  | cons y ys ih =>
      rcases List.pairwise_cons.mp hl with ⟨hy, hys⟩
      by_cases h : lt y x
      · simp only [insLt, h, if_true]
        refine List.pairwise_cons.mpr ⟨?_, ?_⟩
        · intro z hz
          have hz' : z ∈ x :: ys := (perm_insLt lt x ys).mem_iff.mp hz
          rcases List.mem_cons.mp hz' with rfl | hzys
          · intro hyx _
            exact absurd h (by simp [hyx])
          · exact hy z hzys
        · exact ih hys (fun z hz => hx z (List.mem_cons_of_mem y hz))
      · simp only [insLt, h, if_false]
        refine List.pairwise_cons.mpr ⟨?_, hl⟩
        intro z hz
        rcases List.mem_cons.mp hz with rfl | hzys
        · exact hx _ (List.mem_cons_self _ _)
        · exact hx z (List.mem_cons_of_mem _ hzys)

theorem pairwise_sortLt_stable
    (lt : α → α → Bool) (K : α → α → Prop)
    (l : List α)
    (hl : l.Pairwise K) :
    (sortLt lt l).Pairwise (fun a b => lt a b = false → lt b a = false → K a b) := by
  induction l with
  | nil => simp [sortLt]
  | cons x xs ih =>
      rcases List.pairwise_cons.mp hl with ⟨hx, hxs⟩
      simp only [sortLt, List.foldr_cons]
      refine pairwise_insLt_stable lt K x _ (ih hxs) ?_
      intro z hz _ _
      exact hx z ((perm_sortLt lt xs).mem_iff.mp hz)

theorem charListLTb_asym : ∀ a b : List Char, charListLTb a b = true → charListLTb b a = false := by
  intro a
  induction a with
  | nil =>
      intro b h
      cases b with
      | nil => simp [charListLTb] at h
      | cons c cs => simp [charListLTb]
  | cons x xs ih =>
      intro b h
      cases b with
      | nil => simp [charListLTb] at h
      | cons y ys =>
          by_cases hxy : x = y
          · subst hxy
            simp only [charListLTb, if_pos rfl] at h ⊢
            exact ih ys h
          · simp only [charListLTb, if_neg hxy] at h
            have hlt : x < y := of_decide_eq_true h
            have hyx : ¬ (y = x) := fun he => hxy he.symm
            simp only [charListLTb, if_neg hyx]
            exact decide_eq_false (not_lt_of_lt hlt)

theorem charListLTb_trans : ∀ a b c : List Char,
    charListLTb a b = true → charListLTb b c = true → charListLTb a c = true := by
  intro a
  induction a with
  | nil =>
      intro b c h1 h2
      cases c with
      | nil =>
          cases b with
          | nil => simp [charListLTb] at h1
          | cons y ys => simp [charListLTb] at h2
      | cons z zs => simp [charListLTb]
  | cons x xs ih =>
      intro b c h1 h2
      cases b with
      | nil => simp [charListLTb] at h1
      | cons y ys =>
          cases c with
          | nil => simp [charListLTb] at h2
          | cons z zs =>
              by_cases hxy : x = y
              · subst hxy
                simp only [charListLTb, if_pos rfl] at h1
                by_cases hyz : x = z
                · subst hyz
                  simp only [charListLTb, if_pos rfl] at h2 ⊢
                  exact ih ys zs h1 h2
                · simp only [charListLTb, if_neg hyz] at h2 ⊢
                  exact h2
              · simp only [charListLTb, if_neg hxy] at h1
                have hlt1 : x < y := of_decide_eq_true h1
                by_cases hyz : y = z
                · subst hyz
                  simp only [charListLTb, if_neg hxy]
                  exact decide_eq_true hlt1
                · simp only [charListLTb, if_neg hyz] at h2
                  have hlt2 : y < z := of_decide_eq_true h2
                  have hlt : x < z := lt_trans hlt1 hlt2
                  by_cases hxz : x = z
                  · exact absurd (hxz ▸ hlt) (lt_irrefl _)
                  · simp only [charListLTb, if_neg hxz]
                    exact decide_eq_true hlt

theorem charListLTb_eq_of_not : ∀ a b : List Char,
    charListLTb a b = false → charListLTb b a = false → a = b := by
  intro a
  induction a with
  | nil =>
      intro b h1 _
      cases b with
      | nil => rfl
      | cons y ys => simp [charListLTb] at h1
  | cons x xs ih =>
      intro b h1 h2
      cases b with
      | nil => simp [charListLTb] at h2
      | cons y ys =>
          by_cases hxy : x = y
          · subst hxy
            simp only [charListLTb, if_pos rfl] at h1 h2
            rw [ih ys h1 h2]
          · simp only [charListLTb, if_neg hxy] at h1
            have hyx : ¬ (y = x) := fun he => hxy he.symm
            simp only [charListLTb, if_neg hyx] at h2
            exact absurd
              (le_antisymm (not_lt.mp (of_decide_eq_false h2))
                (not_lt.mp (of_decide_eq_false h1))) hxy

theorem strLTb_asym (a b : String) (h : strLTb a b = true) : strLTb b a = false :=
  charListLTb_asym a.data b.data h

theorem strLTb_trans (a b c : String) (h1 : strLTb a b = true) (h2 : strLTb b c = true) :
    strLTb a c = true :=
  charListLTb_trans a.data b.data c.data h1 h2

theorem strLTb_eq_of_not (a b : String) (h1 : strLTb a b = false) (h2 : strLTb b a = false) :
    a = b := by
  have h := charListLTb_eq_of_not a.data b.data h1 h2
  cases a with
  | mk da =>
      cases b with
      | mk db => exact congrArg String.mk h

theorem keyLTb_asym : ∀ a b : Cell, keyLTb a b = true → keyLTb b a = false := by
  intro a b h
  cases a <;> cases b <;> simp only [keyLTb] at h ⊢ <;>
    first
    | rfl
    | exact absurd h (by decide)
    | exact strLTb_asym _ _ h
    | (rw [decide_eq_true_eq] at h
       rw [decide_eq_false_iff_not]
       exact not_lt_of_lt h)

theorem keyLTb_eq_of_not : ∀ a b : Cell, keyLTb a b = false → keyLTb b a = false → a = b := by
  intro a b h1 h2
  cases a <;> cases b <;> simp only [keyLTb] at h1 h2 ⊢ <;>
    first
    | rfl
    | exact absurd h1 (by decide)
    | exact absurd h2 (by decide)
    | exact congrArg _ (strLTb_eq_of_not _ _ h1 h2)
    | (rw [decide_eq_false_iff_not] at h1 h2
       exact congrArg _ (le_antisymm (le_of_not_lt h2) (le_of_not_lt h1)))

theorem keyLTb_trans : ∀ a b c : Cell,
    keyLTb a b = true → keyLTb b c = true → keyLTb a c = true := by
  intro a b c h1 h2
  cases a <;> cases b <;> cases c <;> simp only [keyLTb] at h1 h2 ⊢ <;>
    first
    | rfl
    | exact absurd h1 (by decide)
    | exact absurd h2 (by decide)
    | exact strLTb_trans _ _ _ h1 h2
    | (rw [decide_eq_true_eq] at h1 h2
       rw [decide_eq_true_eq]
       exact lt_trans h1 h2)

theorem keyLTb_compTrans : ∀ a b c : Cell,
    keyLTb b a = false → keyLTb c b = false → keyLTb c a = false := by
  intro a b c h1 h2
  cases hca : keyLTb c a
  · rfl
  · exfalso
    cases hbc : keyLTb b c
    · have hbceq : b = c := keyLTb_eq_of_not b c hbc h2
      subst hbceq
      simp [hca] at h1
    · have := keyLTb_trans b c a hbc hca
      simp [this] at h1

theorem mem_insertNew [DecidableEq κ] (acc : List κ) (x k : κ) :
    k ∈ insertNew acc x ↔ k ∈ acc ∨ k = x := by
  by_cases h : x ∈ acc
  · simp only [insertNew, if_pos h]
    constructor
    · exact Or.inl
    · rintro (hk | rfl)
      · exact hk
      · exact h
  · simp [insertNew, if_neg h]

theorem mem_foldl_insertNew [DecidableEq κ] (l : List κ) :
    ∀ acc k, (k ∈ l.foldl insertNew acc ↔ k ∈ acc ∨ k ∈ l) := by
  induction l with
  | nil => simp
  | cons x xs ih =>
      intro acc k
      simp only [List.foldl_cons]
      rw [ih]
      rw [mem_insertNew]
      simp only [List.mem_cons]
      tauto

theorem mem_firstSeen [DecidableEq κ] (l : List κ) (k : κ) :
    k ∈ firstSeen l ↔ k ∈ l := by
  simp [firstSeen, mem_foldl_insertNew]

theorem nodup_insertNew [DecidableEq κ] (acc : List κ) (x : κ) (h : acc.Nodup) :
    (insertNew acc x).Nodup := by
  by_cases hx : x ∈ acc
  · simpa [insertNew, hx] using h
  · simp [insertNew, hx, List.nodup_append, h]

theorem nodup_foldl_insertNew [DecidableEq κ] (l : List κ) :
    ∀ acc : List κ, acc.Nodup → (l.foldl insertNew acc).Nodup := by
  induction l with
  | nil => exact fun _ h => h
  | cons x xs ih =>
      intro acc h
      exact ih _ (nodup_insertNew acc x h)

theorem nodup_firstSeen [DecidableEq κ] (l : List κ) : (firstSeen l).Nodup :=
  nodup_foldl_insertNew l [] List.nodup_nil

theorem groupsBy_keys [DecidableEq κ] (lt : κ → κ → Bool) (keyOf : ρ → κ)
    (rows : List ρ) :
    (groupsBy lt keyOf rows).map Prod.fst = sortLt lt (firstSeen (rows.map keyOf)) := by
  simp [groupsBy, Function.comp_def]

/-- On a duplicate-free list, the sort is strictly increasing. -/
theorem pairwise_sortLt_of_nodup
    (lt : α → α → Bool)
    (hasym : ∀ a b, lt a b = true → lt b a = false)
    (htr : ∀ a b c, lt b a = false → lt c b = false → lt c a = false)
    (heq : ∀ a b, lt a b = false → lt b a = false → a = b)
    (l : List α) (hl : l.Nodup) :
    (sortLt lt l).Pairwise (fun a b => lt a b = true) := by
  have h1 := pairwise_sortLt lt hasym htr l
  have h2 : (sortLt lt l).Pairwise (fun a b : α => a ≠ b) :=
    ((perm_sortLt lt l).nodup_iff.mpr hl)
  refine (h1.and h2).imp ?_
  rintro a b ⟨hba, hne⟩
  cases hab : lt a b
  · exact absurd (heq a b hab hba) hne
  · rfl

/-! ### Plumbing lemmas for `region_aggregate` -/

theorem valueLTb_asym : ∀ a b : Cell × ℚ, valueLTb a b = true → valueLTb b a = false := by
  intro a b h
  simp only [valueLTb, decide_eq_true_eq] at h
  simp only [valueLTb, decide_eq_false_iff_not]
  exact not_lt_of_lt h

theorem valueLTb_compTrans : ∀ a b c : Cell × ℚ,
    valueLTb b a = false → valueLTb c b = false → valueLTb c a = false := by
  intro a b c h1 h2
  simp only [valueLTb, decide_eq_false_iff_not, not_lt] at h1 h2 ⊢
  exact le_trans h2 h1

theorem mapOpt_map_fst {α β κ : Type _} (F : α → Option β) (key : α → κ) :
    ∀ (l : List α) (res : List (κ × β)),
      mapOpt (fun a => (F a).map (fun b => (key a, b))) l = some res →
      res.map Prod.fst = l.map key := by
  intro l
  induction l with
  | nil =>
      intro res h
      injection h with h
      subst h
      rfl
  | cons x xs ih =>
      intro res h
      simp only [mapOpt] at h
      cases hF : (F x).map (fun b => (key x, b)) with
      | none => rw [hF] at h; exact absurd h (by simp)
      | some y =>
          rw [hF] at h
          cases hm : mapOpt (fun a => (F a).map (fun b => (key a, b))) xs with
          | none => rw [hm] at h; exact absurd h (by simp)
          | some ys =>
              rw [hm] at h
              injection h with h
              subst h
              obtain ⟨b, _, rfl⟩ := Option.map_eq_some'.mp hF
              simp [ih ys hm]

theorem mapOpt_congr_some {α β : Type _} (f : α → Option β) (g : α → β)
    (h : ∀ a, f a = some (g a)) : ∀ l : List α, mapOpt f l = some (l.map g) := by
  intro l
  induction l with
  | nil => rfl
  | cons x xs ih => simp [mapOpt, h x, ih]

theorem mem_keptPairs_fst (red : List (Cell × Cell)) (z : Cell × ℚ)
    (hz : z ∈ keptPairs red) : ∃ p ∈ red, z.1 = p.1 := by
  obtain ⟨p, hp, he⟩ := List.mem_filterMap.mp hz
  obtain ⟨q, _, rfl⟩ := Option.map_eq_some'.mp he
  exact ⟨p, hp, rfl⟩

theorem keptPairs_fst_sublist (red : List (Cell × Cell)) :
    List.Sublist ((keptPairs red).map Prod.fst) (red.map Prod.fst) := by
  induction red with
  | nil => simp [keptPairs]
  | cons p ps ih =>
      cases ht : toNumeric p.2 with
      | none =>
          simp only [keptPairs, List.filterMap_cons, ht, List.map_cons]
          exact ih.cons p.1
      | some q =>
          simp only [keptPairs, List.filterMap_cons, ht, Option.map_some', List.map_cons]
          exact ih.cons₂ p.1

theorem pairwise_keptPairs {red : List (Cell × Cell)} {K : Cell → Cell → Prop}
    (h : red.Pairwise (fun p q => K p.1 q.1)) :
    (keptPairs red).Pairwise (fun p q => K p.1 q.1) := by
  induction red with
  | nil => simp [keptPairs]
  | cons p ps ih =>
      rcases List.pairwise_cons.mp h with ⟨hp, hps⟩
      cases ht : toNumeric p.2 with
      | none => simpa [keptPairs, List.filterMap_cons, ht] using ih hps
      | some q =>
          simp only [keptPairs, List.filterMap_cons, ht, Option.map_some']
          refine List.pairwise_cons.mpr ⟨?_, ih hps⟩
          intro z hz
          obtain ⟨p', hp', hz1⟩ := mem_keptPairs_fst ps z hz
          rw [hz1]
          exact hp p' hp'

theorem mem_groupsBy [DecidableEq κ] (lt : κ → κ → Bool) (keyOf : ρ → κ)
    (rows : List ρ) (k : κ) (grp : List ρ) :
    (k, grp) ∈ groupsBy lt keyOf rows ↔
      k ∈ firstSeen (rows.map keyOf) ∧
      grp = rows.filter (fun r => decide (keyOf r = k)) := by
  simp only [groupsBy, List.mem_map, mem_sortLt]
  constructor
  · rintro ⟨k', hk', heq⟩
    obtain ⟨h1, h2⟩ := Prod.mk.injEq .. ▸ heq
    exact ⟨h1 ▸ hk', by rw [← h2, h1]⟩
  · rintro ⟨hk, rfl⟩
    exact ⟨k, hk, rfl⟩

theorem region_aggregate_ok_elim {df : Df} {rc vc : String} {agg : Agg}
    {out : List (Cell × ℚ)}
    (h : region_aggregate df rc vc agg = .ok out) :
    ∃ red, reducedPairs df rc vc agg = some red ∧
      out = sortLt valueLTb (keptPairs red) := by
  unfold region_aggregate at h
  split at h
  · split at h
    · exact absurd h (by simp)
    · split at h
      · exact absurd h (by simp)
      · rename_i red hred
        refine ⟨red, hred, ?_⟩
        injection h with h
        exact h.symm
  · exact absurd h (by simp)

theorem aggGroups_keys_pairwise (df : Df) (rc : String) :
    ((aggGroups df rc).map Prod.fst).Pairwise (fun a b => keyLTb a b = true) ∧
    ((aggGroups df rc).map Prod.fst).Nodup := by
  rw [show (aggGroups df rc).map Prod.fst
      = sortLt keyLTb (firstSeen (df.rows.map (rowCell df rc))) from
    groupsBy_keys keyLTb (rowCell df rc) df.rows]
  constructor
  · exact pairwise_sortLt_of_nodup keyLTb keyLTb_asym keyLTb_compTrans keyLTb_eq_of_not
      _ (nodup_firstSeen _)
  · exact (perm_sortLt keyLTb _).nodup_iff.mpr (nodup_firstSeen _)

/-- The structural facts claims C2 and C5 need: the output is sorted by
value descending with ties in ascending key order, and its keys are
distinct. -/
theorem regionAggregate_pairwise {df : Df} {rc vc : String} {agg : Agg}
    {out : List (Cell × ℚ)}
    (h : region_aggregate df rc vc agg = .ok out) :
    out.Pairwise (fun a b => b.2 ≤ a.2 ∧ (b.2 = a.2 → keyLTb a.1 b.1 = true)) ∧
    (out.map Prod.fst).Nodup := by
  obtain ⟨red, hred, rfl⟩ := region_aggregate_ok_elim h
  obtain ⟨hkpair, hknodup⟩ := aggGroups_keys_pairwise df rc
  have hredfst : red.map Prod.fst = (aggGroups df rc).map Prod.fst :=
    mapOpt_map_fst _ Prod.fst _ _ hred
  have hredpair : red.Pairwise (fun p q => keyLTb p.1 q.1 = true) :=
    List.pairwise_map.mp (hredfst ▸ hkpair)
  have hkept : (keptPairs red).Pairwise (fun p q => keyLTb p.1 q.1 = true) :=
    pairwise_keptPairs (K := fun c d => keyLTb c d = true) hredpair
  constructor
  · have hsorted := pairwise_sortLt valueLTb valueLTb_asym valueLTb_compTrans (keptPairs red)
    have hstable := pairwise_sortLt_stable valueLTb
      (fun p q : Cell × ℚ => keyLTb p.1 q.1 = true) (keptPairs red) hkept
    refine (hsorted.and hstable).imp ?_
    rintro a b ⟨hba, hst⟩
    have hle : b.2 ≤ a.2 := by
      have := of_decide_eq_false hba
      exact not_lt.mp this
    refine ⟨hle, fun heq => ?_⟩
    exact hst (by simp [valueLTb, heq]) (by simp [valueLTb, heq])
  · have hsub := (keptPairs_fst_sublist red)
    have : ((keptPairs red).map Prod.fst).Nodup :=
      (hredfst ▸ hknodup : (red.map Prod.fst).Nodup).sublist hsub
    have hperm := (perm_sortLt valueLTb (keptPairs red)).map Prod.fst
    exact hperm.nodup_iff.mpr this

/-- C5: whenever `region_aggregate` succeeds, its output rows have pairwise
distinct region values and their value fields are non-increasing from first
row to last. -/
theorem claim5_unique_regions_sorted_values
    (df : Df) (rc vc : String) (agg : Agg) (out : List (Cell × ℚ))
    (h : region_aggregate df rc vc agg = .ok out) :
    (out.map Prod.fst).Nodup ∧ out.Pairwise (fun a b => b.2 ≤ a.2) := by
  obtain ⟨hpair, hnodup⟩ := regionAggregate_pairwise h
  exact ⟨hnodup, hpair.imp (fun hab => hab.1)⟩

/-- Witness for C5 on a concrete dataset. -/
theorem claim5_witness :
    (([((Cell.str "A"), (5 : ℚ)), (Cell.str "B", 3), (Cell.str "C", 2)].map Prod.fst).Nodup ∧
     [((Cell.str "A"), (5 : ℚ)), (Cell.str "B", 3), (Cell.str "C", 2)].Pairwise
       (fun a b => b.2 ≤ a.2)) :=
  claim5_unique_regions_sorted_values dfABC "r" "v" Agg.sum
    [(Cell.str "A", 5), (Cell.str "B", 3), (Cell.str "C", 2)] (by rfl)

/-- C2 (amended): `region_aggregate` sorts by value descending, and ties are
emitted in the groupby key order — ascending region key (numbers, then
strings lexicographically, missing last) — not in first-encountered order. -/
theorem claim2_amended_ties_in_sorted_key_order
    (df : Df) (rc vc : String) (agg : Agg) (out : List (Cell × ℚ))
    (h : region_aggregate df rc vc agg = .ok out) :
    out.Pairwise (fun a b => b.2 < a.2 ∨ (b.2 = a.2 ∧ keyLTb a.1 b.1 = true)) := by
  obtain ⟨hpair, _⟩ := regionAggregate_pairwise h
  refine hpair.imp ?_
  rintro a b ⟨hle, htie⟩
  rcases eq_or_lt_of_le hle with heq | hlt
  · exact Or.inr ⟨heq, htie heq⟩
  · exact Or.inl hlt

/-- C2 counterexample: with rows `[B, 5], [A, 5]` the tied groups come out
as `A, B` (ascending key order), not in the first-encountered order `B, A`
that the claim asserts. -/
theorem claim2_counterexample :
    region_aggregate dfTie "r" "v" Agg.sum
      = .ok [(Cell.str "A", 5), (Cell.str "B", 5)] ∧
    ([(Cell.str "A", (5 : ℚ)), (Cell.str "B", 5)]
      ≠ [(Cell.str "B", 5), (Cell.str "A", 5)]) := by
  constructor
  · rfl
  · decide

/-- Witness for the amended C2 on a concrete dataset with a tie. -/
theorem claim2_witness :
    [(Cell.str "A", (5 : ℚ)), (Cell.str "B", 5)].Pairwise
      (fun a b => b.2 < a.2 ∨ (b.2 = a.2 ∧ keyLTb a.1 b.1 = true)) :=
  claim2_amended_ties_in_sorted_key_order dfTie "r" "v" Agg.sum
    [(Cell.str "A", 5), (Cell.str "B", 5)] (by rfl)

/-! ### C1: where the numeric coercion happens -/

theorem toNumeric_aggNumeric (agg : Agg) (cells : List Cell) :
    toNumeric (aggNumeric agg cells) = specReduce agg (cellNums cells) := by
  cases agg with
  | sum => rfl
  | count => rfl
  | mean => cases h : cellNums cells <;> simp [aggNumeric, specReduce, h, toNumeric]
  | min => cases h : cellNums cells <;> simp [aggNumeric, specReduce, h, toNumeric]
  | max => cases h : cellNums cells <;> simp [aggNumeric, specReduce, h, toNumeric]

theorem filterMap_toNumeric_eq_cellNums (cells : List Cell)
    (h : ∀ c ∈ cells, Cell.numOrNull c = true) :
    cells.filterMap toNumeric = cellNums cells := by
  induction cells with
  | nil => rfl
  | cons c cs ih =>
      have hc := h c (List.mem_cons_self c cs)
      have hcs : ∀ x ∈ cs, Cell.numOrNull x = true :=
        fun x hx => h x (List.mem_cons_of_mem c hx)
      have ih' := ih hcs
      cases c with
      | null => exact ih'
      | num q => exact congrArg (List.cons q) ih'
      | str s => exact absurd hc (by simp [Cell.numOrNull])

/-- C1 (amended): on a numeric-dtype value column — every cell a number or
missing, the dtype pandas infers when no string is present — the reduced
value of every output group is exactly the claim's coerce-then-drop-then-
reduce over that group, for every supported reduction including `count`;
groups whose reduction is undefined (mean/min/max with no surviving value)
are dropped.  On an object-dtype column the code instead reduces the raw
values first and coerces only the reduced result (see the counterexample,
where `count` counts a non-coercible row). -/
theorem claim1_amended_numeric_dtype_coerce_first
    (df : Df) (rc vc : String) (agg : Agg) (out : List (Cell × ℚ))
    (hnum : (colCells df vc).all Cell.numOrNull = true)
    (h : region_aggregate df rc vc agg = .ok out) :
    ∀ k v, (k, v) ∈ out ↔
      (k ∈ firstSeen (df.rows.map (rowCell df rc)) ∧
       specReduce agg (((groupRows df rc k).map (rowCell df vc)).filterMap toNumeric)
         = some v) := by
  obtain ⟨red, hred, rfl⟩ := region_aggregate_ok_elim h
  have hform : reducedPairs df rc vc agg
      = some ((aggGroups df rc).map
          (fun g => (g.1, aggNumeric agg (g.2.map (rowCell df vc))))) := by
    unfold reducedPairs
    rw [hnum]
    exact mapOpt_congr_some _ _ (fun g => rfl) _
  have hredeq : red = (aggGroups df rc).map
      (fun g => (g.1, aggNumeric agg (g.2.map (rowCell df vc)))) := by
    rw [hred] at hform
    exact Option.some.inj hform
  subst hredeq
  intro k v
  have hgrp : ∀ k : Cell, ∀ c ∈ (groupRows df rc k).map (rowCell df vc),
      Cell.numOrNull c = true := by
    intro k c hcmem
    obtain ⟨r, hr, rfl⟩ := List.mem_map.mp hcmem
    have hrrows : r ∈ df.rows := List.mem_of_mem_filter hr
    exact List.all_eq_true.mp hnum _ (List.mem_map_of_mem (rowCell df vc) hrrows)
  rw [mem_sortLt]
  constructor
  · intro hk
    obtain ⟨p, hp, he⟩ := List.mem_filterMap.mp hk
    obtain ⟨g, hg, rfl⟩ := List.mem_map.mp hp
    rcases g with ⟨k', grp⟩
    obtain ⟨hmem, hgrpeq⟩ := (mem_groupsBy keyLTb (rowCell df rc) df.rows k' grp).mp hg
    have hgrpeq' : grp = groupRows df rc k' := hgrpeq
    subst hgrpeq'
    obtain ⟨q, hq, hkv⟩ := Option.map_eq_some'.mp he
    obtain ⟨hk1, hv1⟩ := Prod.mk.injEq .. ▸ hkv
    subst hk1
    refine ⟨hmem, ?_⟩
    rw [filterMap_toNumeric_eq_cellNums _ (hgrp k'), ← toNumeric_aggNumeric, hq, hv1]
  · rintro ⟨hmem, hspec⟩
    refine List.mem_filterMap.mpr ⟨(k, aggNumeric agg ((groupRows df rc k).map (rowCell df vc))), ?_, ?_⟩
    · refine List.mem_map.mpr ⟨(k, groupRows df rc k), ?_, rfl⟩
      exact (mem_groupsBy keyLTb (rowCell df rc) df.rows k (groupRows df rc k)).mpr ⟨hmem, rfl⟩
    · rw [toNumeric_aggNumeric]
      rw [← filterMap_toNumeric_eq_cellNums _ (hgrp k)]
      rw [hspec]
      rfl

/-- C1 counterexample: with one group holding the raw values `[1, "abc"]`
(an object-dtype column), `count` reduces first — counting both non-missing
rows — and only the reduced value is coerced, so the output value is 2; the
claim's coerce-then-reduce count of the single coercible row is 1. -/
theorem claim1_counterexample :
    region_aggregate dfCount "r" "v" Agg.count = .ok [(Cell.str "A", 2)] ∧
    specReduce Agg.count
      (((groupRows dfCount "r" (Cell.str "A")).map (rowCell dfCount "v")).filterMap toNumeric)
      = some 1 ∧
    (2 : ℚ) ≠ 1 := by
  refine ⟨rfl, rfl, by norm_num⟩

/-- Witness for the amended C1 on a concrete numeric-dtype dataset. -/
theorem claim1_witness :
    ((Cell.str "A", (5 : ℚ)) ∈ [(Cell.str "A", (5 : ℚ)), (Cell.str "B", 3), (Cell.str "C", 2)]) ↔
      (Cell.str "A" ∈ firstSeen (dfABC.rows.map (rowCell dfABC "r")) ∧
       specReduce Agg.sum
         (((groupRows dfABC "r" (Cell.str "A")).map (rowCell dfABC "v")).filterMap toNumeric)
         = some 5) :=
  claim1_amended_numeric_dtype_coerce_first dfABC "r" "v" Agg.sum
    [(Cell.str "A", 5), (Cell.str "B", 3), (Cell.str "C", 2)] (by rfl) (by rfl)
    (Cell.str "A") 5

/-! ### `rankings` and `executive_summary` -/

theorem rankings_eq {df : Df} {rc vc : String} {agg : Agg} {out : List (Cell × ℚ)}
    (n : ℤ) (hagg : region_aggregate df rc vc agg = .ok out) :
    rankings df rc vc agg n =
      .ok ((out.map (fun p => RegionValue.mk (cellStr p.1) p.2)).take (max 0 n).toNat,
           if 0 < n then
             ((out.map (fun p => RegionValue.mk (cellStr p.1) p.2)).drop
               ((out.map (fun p => RegionValue.mk (cellStr p.1) p.2)).length
                 - (max 0 n).toNat)).reverse
           else []) := by
  unfold rankings
  rw [hagg]
  rfl

theorem pairwise_getLast?_min {β : Type _} (val : β → ℚ) :
    ∀ (l : List β), l.Pairwise (fun a b => val b ≤ val a) →
      ∀ m, l.getLast? = some m → ∀ x ∈ l, val m ≤ val x := by
  intro l
  induction l with
  | nil =>
      intro _ m hm
      simp at hm
  | cons a as ih =>
      intro hp m hm x hx
      rcases List.pairwise_cons.mp hp with ⟨ha, has⟩
      cases as with
      | nil =>
          simp at hm hx
          subst hm
          subst hx
          exact le_refl _
      | cons b bs =>
          have hm' : (b :: bs).getLast? = some m := by
            simpa [List.getLast?_cons_cons] using hm
          rcases List.mem_cons.mp hx with rfl | hx'
          · exact ha m (List.mem_of_getLast?_eq_some hm')
          · exact ih has m hm' x hx'

/-- C6: `rankings` with `top_n = N ≥ 0` returns `top` of length
`min N (#regions)` with non-increasing values, `bottom` non-decreasing read
top-to-bottom with `bottom[0]` a smallest-value region, and both empty when
`N = 0`. -/
theorem claim6_rankings_shape
    (df : Df) (rc vc : String) (agg : Agg) (out : List (Cell × ℚ))
    (N : ℕ) (top bottom : List RegionValue)
    (hagg : region_aggregate df rc vc agg = .ok out)
    (hrk : rankings df rc vc agg (N : ℤ) = .ok (top, bottom)) :
    top.length = min N out.length ∧
    top.Pairwise (fun a b => b.value ≤ a.value) ∧
    bottom.Pairwise (fun a b => a.value ≤ b.value) ∧
    (∀ w, bottom.head? = some w → ∀ p ∈ out, w.value ≤ p.2) ∧
    (N = 0 → top = [] ∧ bottom = []) := by
  rw [rankings_eq (N : ℤ) hagg] at hrk
  have hmax : (max 0 (N : ℤ)).toNat = N := by
    rw [max_eq_right (Int.natCast_nonneg N), Int.toNat_natCast]
  rw [hmax] at hrk
  injection hrk with hrk
  obtain ⟨htop, hbot⟩ := Prod.mk.injEq .. ▸ hrk.symm
  have hvals : (out.map (fun p => RegionValue.mk (cellStr p.1) p.2)).Pairwise
      (fun a b => b.value ≤ a.value) := by
    refine List.pairwise_map.mpr ?_
    exact ((regionAggregate_pairwise hagg).1).imp (fun hab => hab.1)
  refine ⟨?_, ?_, ?_, ?_, ?_⟩
  · rw [htop, List.length_take, List.length_map]
  · rw [htop]
    exact hvals.sublist (List.take_sublist _ _)
  · rw [hbot]
    by_cases hN : 0 < (N : ℤ)
    · rw [if_pos hN]
      rw [List.pairwise_reverse]
      exact (hvals.sublist (List.drop_sublist _ _)).imp (fun hab => hab)
    · rw [if_neg hN]
      exact List.Pairwise.nil
  · intro w hw p hp
    rw [hbot] at hw
    by_cases hN : 0 < (N : ℤ)
    · rw [if_pos hN, List.head?_reverse] at hw
      have hwlast : (out.map (fun p => RegionValue.mk (cellStr p.1) p.2)).getLast?
          = some w := by
        by_cases hd : (out.map (fun p => RegionValue.mk (cellStr p.1) p.2)).drop
            ((out.map (fun p => RegionValue.mk (cellStr p.1) p.2)).length - N) = []
        · rw [hd] at hw
          exact absurd hw (by simp)
        · rw [← List.take_append_drop
            ((out.map (fun p => RegionValue.mk (cellStr p.1) p.2)).length - N)
            (out.map (fun p => RegionValue.mk (cellStr p.1) p.2))]
          rw [List.getLast?_append_of_ne_nil _ hd]
          exact hw
      have := pairwise_getLast?_min (fun rv : RegionValue => rv.value) _ hvals w hwlast
      exact this _ (List.mem_map_of_mem _ hp)
    · rw [if_neg hN] at hw
      exact absurd hw (by simp)
  · intro hN0
    subst hN0
    constructor
    · rw [htop]
      rfl
    · rw [hbot]
      rfl

/-- Witness for C6 on a concrete dataset with `N = 2`. -/
theorem claim6_witness :
    ([(⟨"A", 5⟩ : RegionValue), ⟨"B", 3⟩].length
        = min 2 [((Cell.str "A"), (5 : ℚ)), (Cell.str "B", 3), (Cell.str "C", 2)].length) ∧
    ([(⟨"A", 5⟩ : RegionValue), ⟨"B", 3⟩].Pairwise (fun a b => b.value ≤ a.value)) ∧
    ([(⟨"C", 2⟩ : RegionValue), ⟨"B", 3⟩].Pairwise (fun a b => a.value ≤ b.value)) ∧
    (∀ w, [(⟨"C", 2⟩ : RegionValue), ⟨"B", 3⟩].head? = some w →
      ∀ p ∈ [((Cell.str "A"), (5 : ℚ)), (Cell.str "B", 3), (Cell.str "C", 2)],
        w.value ≤ p.2) ∧
    ((2 : ℕ) = 0 → [(⟨"A", 5⟩ : RegionValue), ⟨"B", 3⟩] = []
        ∧ [(⟨"C", 2⟩ : RegionValue), ⟨"B", 3⟩] = []) :=
  claim6_rankings_shape dfABC "r" "v" Agg.sum
    [(Cell.str "A", 5), (Cell.str "B", 3), (Cell.str "C", 2)] 2
    [⟨"A", 5⟩, ⟨"B", 3⟩] [⟨"C", 2⟩, ⟨"B", 3⟩] (by rfl) (by rfl)

theorem except_bind_ok {ε α β : Type _} (a : α) (f : α → Except ε β) :
    (Except.ok a : Except ε α).bind f = f a := rfl

theorem executive_summary_eq
    {df : Df} {metric rc vc : String} {agg : Agg} {top_n : ℤ}
    {out : List (Cell × ℚ)} {top bottom : List RegionValue}
    (hagg : region_aggregate df rc vc agg = .ok out) (hne : out ≠ [])
    (hrk : rankings df rc vc agg top_n = .ok (top, bottom)) :
    executive_summary df metric rc vc agg top_n =
      (match top with
       | [] => .error .indexError
       | best :: rest =>
           .ok ⟨summaryStr best.region metric (aggName agg)
                  (match bottom with
                   | w :: _ => w
                   | [] => (best :: rest).getLastD best).region,
                [topFindingStr best.region best.value metric
                   (pctOf ((out.map Prod.snd).sum) best.value),
                 bottomFindingStr
                   (match bottom with
                    | w :: _ => w
                    | [] => (best :: rest).getLastD best).region
                   (match bottom with
                    | w :: _ => w
                    | [] => (best :: rest).getLastD best).value metric
                   (pctOf ((out.map Prod.snd).sum)
                     (match bottom with
                      | w :: _ => w
                      | [] => (best :: rest).getLastD best).value),
                 totalFindingStr ((out.map Prod.snd).sum) metric],
                bottom.foldl (fun m rv => dictSetdefault m rv.region
                    (metric ++ "_" ++ aggName agg, fmtFixed 2 true rv.value))
                  ((best :: rest).foldl (fun m rv => dictSet m rv.region
                    (metric ++ "_" ++ aggName agg, fmtFixed 2 true rv.value)) [])⟩) := by
  unfold executive_summary
  rw [hagg, except_bind_ok, if_neg hne]
  simp only [hrk, except_bind_ok]
  cases top with
  | nil => rfl
  | cons best rest => rfl

/-- Everything the summary-related claims need when the aggregation is
nonempty and `top_n ≥ 1`: rankings succeed, `best` is the head of `top`,
`worst` the head of `bottom`, the summary and findings are built from them,
and `worst` carries a minimal aggregated value. -/
theorem executive_summary_parts
    (df : Df) (metric rc vc : String) (agg : Agg) (top_n : ℤ)
    (out : List (Cell × ℚ))
    (hagg : region_aggregate df rc vc agg = .ok out)
    (hne : out ≠ []) (hn : 1 ≤ top_n) :
    ∃ top bottom best worst rcmp,
      rankings df rc vc agg top_n = .ok (top, bottom) ∧
      top.head? = some best ∧
      bottom.head? = some worst ∧
      executive_summary df metric rc vc agg top_n = .ok
        ⟨summaryStr best.region metric (aggName agg) worst.region,
         [topFindingStr best.region best.value metric
            (pctOf ((out.map Prod.snd).sum) best.value),
          bottomFindingStr worst.region worst.value metric
            (pctOf ((out.map Prod.snd).sum) worst.value),
          totalFindingStr ((out.map Prod.snd).sum) metric],
         rcmp⟩ ∧
      (∀ p ∈ out, worst.value ≤ p.2) := by
  have hrk := rankings_eq top_n hagg
  have hmax : max 0 top_n = top_n := max_eq_right (le_trans zero_le_one hn)
  rw [hmax, if_pos (lt_of_lt_of_le zero_lt_one hn)] at hrk
  have hvne : out.map (fun p => RegionValue.mk (cellStr p.1) p.2) ≠ [] := by
    simpa using hne
  obtain ⟨v, vs, hvals⟩ := List.exists_cons_of_ne_nil hvne
  rw [hvals] at hrk
  have htn : 1 ≤ top_n.toNat := by omega
  obtain ⟨k, hk⟩ : ∃ k, top_n.toNat = k + 1 := ⟨top_n.toNat - 1, by omega⟩
  have hdropne : (v :: vs).drop ((v :: vs).length - top_n.toNat) ≠ [] := by
    intro hcon
    have hlen := congrArg List.length hcon
    rw [List.length_drop] at hlen
    simp only [List.length_cons, List.length_nil] at hlen
    omega
  obtain ⟨w, hw⟩ : ∃ w, ((v :: vs).drop ((v :: vs).length - top_n.toNat)).getLast?
      = some w := by
    cases hg : ((v :: vs).drop ((v :: vs).length - top_n.toNat)).getLast? with
    | none => exact absurd (List.getLast?_eq_none_iff.mp hg) hdropne
    | some w => exact ⟨w, rfl⟩
  have hvpair : (v :: vs).Pairwise (fun a b => b.value ≤ a.value) := by
    rw [← hvals]
    refine List.pairwise_map.mpr ?_
    exact ((regionAggregate_pairwise hagg).1).imp (fun hab => hab.1)
  have hwlast : (v :: vs).getLast? = some w := by
    rw [← List.take_append_drop ((v :: vs).length - top_n.toNat) (v :: vs)]
    rw [List.getLast?_append_of_ne_nil _ hdropne]
    exact hw
  have hmin : ∀ p ∈ out, w.value ≤ p.2 := by
    intro p hp
    have hmem : RegionValue.mk (cellStr p.1) p.2 ∈ v :: vs := by
      rw [← hvals]
      exact List.mem_map_of_mem _ hp
    exact pairwise_getLast?_min (fun rv : RegionValue => rv.value) _ hvpair w hwlast
      _ hmem
  have htop2 : (v :: vs).take top_n.toNat = v :: vs.take k := by
    rw [hk, List.take_succ_cons]
  obtain ⟨b2, hbot2⟩ : ∃ b2, ((v :: vs).drop ((v :: vs).length - top_n.toNat)).reverse
      = w :: b2 := by
    cases hrv : ((v :: vs).drop ((v :: vs).length - top_n.toNat)).reverse with
    | nil => exact absurd (by simpa using congrArg List.reverse hrv) hdropne
    | cons w2 b2 =>
        have hhead : (((v :: vs).drop ((v :: vs).length - top_n.toNat)).reverse).head?
            = some w := by
          rw [List.head?_reverse]
          exact hw
        rw [hrv] at hhead
        injection hhead with hhead
        subst hhead
        exact ⟨b2, rfl⟩
  rw [htop2, hbot2] at hrk
  have hexec := @executive_summary_eq df metric rc vc agg top_n out
    (v :: vs.take k) (w :: b2) hagg hne hrk
  exact ⟨v :: vs.take k, w :: b2, v, w,
    (w :: b2).foldl (fun m rv => dictSetdefault m rv.region
        (metric ++ "_" ++ aggName agg, fmtFixed 2 true rv.value))
      ((v :: vs.take k).foldl (fun m rv => dictSet m rv.region
        (metric ++ "_" ++ aggName agg, fmtFixed 2 true rv.value)) []),
    hrk, rfl, rfl, hexec, hmin⟩

/-- C4 (amended): the worst region named by `executive_summary`'s summary
sentence and 'Bottom region' key finding is the FIRST element of the bottom
ranking (the overall smallest-value region), not the last; the last-of-top
fallback applies only when bottom is empty. -/
theorem claim4_amended_worst_is_bottom_head
    (df : Df) (metric rc vc : String) (agg : Agg) (top_n : ℤ)
    (out : List (Cell × ℚ)) (top bottom : List RegionValue)
    (hagg : region_aggregate df rc vc agg = .ok out)
    (hne : out ≠ []) (hn : 1 ≤ top_n)
    (hrk : rankings df rc vc agg top_n = .ok (top, bottom)) :
    ∃ best worst es,
      top.head? = some best ∧
      bottom.head? = some worst ∧
      executive_summary df metric rc vc agg top_n = .ok es ∧
      es.summary = summaryStr best.region metric (aggName agg) worst.region ∧
      es.key_findings[1]? = some (bottomFindingStr worst.region worst.value metric
        (pctOf ((out.map Prod.snd).sum) worst.value)) ∧
      (∀ p ∈ out, worst.value ≤ p.2) := by
  obtain ⟨top', bottom', best, worst, rcmp, hrk', hbest, hworst, hexec, hmin⟩ :=
    executive_summary_parts df metric rc vc agg top_n out hagg hne hn
  rw [hrk] at hrk'
  injection hrk' with hpair
  obtain ⟨ht, hb⟩ := Prod.mk.injEq .. ▸ hpair
  refine ⟨best, worst, _, ht ▸ hbest, hb ▸ hworst, hexec, ?_, ?_, hmin⟩
  · rfl
  · rfl

/-- C4 counterexample: with regions A5, B3, C2 and `top_n = 2`, bottom is
`[C, B]` whose last element is B, yet the summary and the 'Bottom region'
finding name C — the first element of bottom — so "worst = last element of
bottom" is false on this input. -/
theorem claim4_counterexample :
    rankings dfABC "r" "v" Agg.sum 2
      = .ok ([⟨"A", 5⟩, ⟨"B", 3⟩], [⟨"C", 2⟩, ⟨"B", 3⟩]) ∧
    ([(⟨"C", 2⟩ : RegionValue), ⟨"B", 3⟩].getLast? = some ⟨"B", 3⟩) ∧
    executive_summary dfABC "revenue" "r" "v" Agg.sum 2 = .ok
      ⟨"A leads on revenue (sum), while C lags.",
       ["Top region: A (5.00 revenue, 50.0% of total).",
        "Bottom region: C (2.00 revenue, 20.0% of total).",
        "Total across regions: 10.00 revenue."],
       [("A", ("revenue_sum", "5.00")), ("B", ("revenue_sum", "3.00")),
        ("C", ("revenue_sum", "2.00"))]⟩ ∧
    ("A leads on revenue (sum), while C lags."
      ≠ "A leads on revenue (sum), while B lags.") := by
  refine ⟨rfl, rfl, rfl, by decide⟩

/-- Witness for the amended C4 on a concrete dataset. -/
theorem claim4_witness :
    ∃ best worst es,
      ([(⟨"A", 5⟩ : RegionValue), ⟨"B", 3⟩].head? = some best) ∧
      ([(⟨"C", 2⟩ : RegionValue), ⟨"B", 3⟩].head? = some worst) ∧
      executive_summary dfABC "revenue" "r" "v" Agg.sum 2 = .ok es ∧
      es.summary = summaryStr best.region "revenue" (aggName Agg.sum) worst.region ∧
      es.key_findings[1]? = some (bottomFindingStr worst.region worst.value "revenue"
        (pctOf (([((Cell.str "A"), (5 : ℚ)), (Cell.str "B", 3),
          (Cell.str "C", 2)].map Prod.snd).sum) worst.value)) ∧
      (∀ p ∈ [((Cell.str "A"), (5 : ℚ)), (Cell.str "B", 3), (Cell.str "C", 2)],
        worst.value ≤ p.2) :=
  claim4_amended_worst_is_bottom_head dfABC "revenue" "r" "v" Agg.sum 2
    [(Cell.str "A", 5), (Cell.str "B", 3), (Cell.str "C", 2)]
    [⟨"A", 5⟩, ⟨"B", 3⟩] [⟨"C", 2⟩, ⟨"B", 3⟩] (by rfl) (by decide) (by decide) (by rfl)

/-- C9: when every aggregated region value is zero the summary is produced
with no division error, and both region findings are built with a
percentage argument of exactly 0, which renders as "0.0". -/
theorem claim9_zero_total_reports_zero_pct
    (df : Df) (metric rc vc : String) (agg : Agg) (top_n : ℤ)
    (out : List (Cell × ℚ))
    (hagg : region_aggregate df rc vc agg = .ok out)
    (hne : out ≠ []) (hzero : ∀ p ∈ out, p.2 = 0) (hn : 1 ≤ top_n) :
    ∃ (best worst : RegionValue) (es : ExecSummary),
      executive_summary df metric rc vc agg top_n = .ok es ∧
      es.key_findings = [topFindingStr best.region best.value metric 0,
        bottomFindingStr worst.region worst.value metric 0,
        totalFindingStr 0 metric] ∧
      fmtFixed 1 false 0 = "0.0" := by
  obtain ⟨top, bottom, best, worst, rcmp, hrk, hbest, hworst, hexec, hmin⟩ :=
    executive_summary_parts df metric rc vc agg top_n out hagg hne hn
  have htot : (out.map Prod.snd).sum = 0 := by
    refine List.sum_eq_zero ?_
    intro x hx
    obtain ⟨p, hp, rfl⟩ := List.mem_map.mp hx
    exact hzero p hp
  rw [htot] at hexec
  have hp0 : ∀ v : ℚ, pctOf 0 v = 0 := fun v => if_pos rfl
  simp only [hp0] at hexec
  exact ⟨best, worst, _, hexec, rfl, rfl⟩

/-- Witness for C9 on a concrete all-zero dataset. -/
theorem claim9_witness :
    ∃ (best worst : RegionValue) (es : ExecSummary),
      executive_summary dfZero "revenue" "r" "v" Agg.sum 1 = .ok es ∧
      es.key_findings = [topFindingStr best.region best.value "revenue" 0,
        bottomFindingStr worst.region worst.value "revenue" 0,
        totalFindingStr 0 "revenue"] ∧
      fmtFixed 1 false 0 = "0.0" :=
  claim9_zero_total_reports_zero_pct dfZero "revenue" "r" "v" Agg.sum 1
    [(Cell.str "A", 0), (Cell.str "B", 0)] (by rfl) (by decide) (by decide) (by decide)

/-- C10: with a nonempty aggregation, `executive_summary` at `top_n = 0`
reaches the unguarded `top[0]` and fails with an IndexError, while every
`top_n ≥ 1` succeeds; the HTTP route rejects `top_n` outside 1..10 with a
422 before the handler runs, so the API surface never triggers the
IndexError. -/
theorem claim10_topn_zero_index_error
    (st : Store) (dataset_id : String) (df : Df)
    (metric rc vc : String) (agg : Agg) (out : List (Cell × ℚ))
    (hagg : region_aggregate df rc vc agg = .ok out) (hne : out ≠ []) :
    executive_summary df metric rc vc agg 0 = .error .indexError ∧
    (∀ top_n : ℤ, 1 ≤ top_n →
      ∃ es, executive_summary df metric rc vc agg top_n = .ok es) ∧
    (∀ top_n : ℤ, top_n < 1 ∨ 10 < top_n →
      analytics_executive_summary_route st dataset_id metric rc vc agg top_n
        = .error .http422) ∧
    (∀ top_n : ℤ, 1 ≤ top_n → top_n ≤ 10 → storeGet st dataset_id = .ok df →
      ∃ es, analytics_executive_summary_route st dataset_id metric rc vc agg top_n
        = .ok es) := by
  have hok : ∀ top_n : ℤ, 1 ≤ top_n →
      ∃ es, executive_summary df metric rc vc agg top_n = .ok es := by
    intro top_n hn
    obtain ⟨top, bottom, best, worst, rcmp, hrk, hbest, hworst, hexec, hmin⟩ :=
      executive_summary_parts df metric rc vc agg top_n out hagg hne hn
    exact ⟨_, hexec⟩
  refine ⟨?_, hok, ?_, ?_⟩
  · have hrk : rankings df rc vc agg 0 = .ok ([], []) := by
      rw [rankings_eq 0 hagg]
      rfl
    exact @executive_summary_eq df metric rc vc agg 0 out [] [] hagg hne hrk
  · intro top_n hbad
    unfold analytics_executive_summary_route
    rw [if_pos hbad]
  · intro top_n h1 h10 hget
    obtain ⟨es, hes⟩ := hok top_n h1
    refine ⟨es, ?_⟩
    unfold analytics_executive_summary_route
    rw [if_neg (not_or.mpr ⟨by omega, by omega⟩), hget, except_bind_ok]
    exact hes

/-- Witness for C10 on a concrete store and dataset. -/
theorem claim10_witness :
    executive_summary dfABC "revenue" "r" "v" Agg.sum 0 = .error .indexError ∧
    analytics_executive_summary_route store1 "d" "revenue" "r" "v" Agg.sum 0
      = .error .http422 ∧
    (∃ es, analytics_executive_summary_route store1 "d" "revenue" "r" "v" Agg.sum 3
      = .ok es) :=
  ⟨(claim10_topn_zero_index_error store1 "d" dfABC "revenue" "r" "v" Agg.sum
      [(Cell.str "A", 5), (Cell.str "B", 3), (Cell.str "C", 2)] (by rfl) (by decide)).1,
   (claim10_topn_zero_index_error store1 "d" dfABC "revenue" "r" "v" Agg.sum
      [(Cell.str "A", 5), (Cell.str "B", 3), (Cell.str "C", 2)] (by rfl)
      (by decide)).2.2.1 0 (Or.inl (by decide)),
   (claim10_topn_zero_index_error store1 "d" dfABC "revenue" "r" "v" Agg.sum
      [(Cell.str "A", 5), (Cell.str "B", 3), (Cell.str "C", 2)] (by rfl)
      (by decide)).2.2.2 3 (by decide) (by decide) (by rfl)⟩

/-! ### The dataset store: C3 and C7 -/

theorem lookup_map_replace {β : Type _} (k : String) (v : β) :
    ∀ m : List (String × β), (m.lookup k).isSome →
      (m.map (fun p => if p.1 = k then (k, v) else p)).lookup k = some v := by
  intro m
  induction m with
  | nil => intro h; simp [List.lookup] at h
  | cons p ps ih =>
      obtain ⟨pk, pv⟩ := p
      intro h
      by_cases hpk : pk = k
      · subst hpk
        simp only [List.map_cons]
        simp [List.lookup]
      · have hkp : (k == pk) = false := beq_eq_false_iff_ne.mpr (fun he => hpk he.symm)
        simp only [List.map_cons, if_neg hpk]
        simp only [List.lookup, hkp] at h ⊢
        exact ih h

theorem lookup_append_single {β : Type _} (k : String) (v : β) :
    ∀ m : List (String × β), m.lookup k = none → (m ++ [(k, v)]).lookup k = some v := by
  intro m
  induction m with
  | nil => intro _; simp [List.lookup]
  | cons p ps ih =>
      obtain ⟨pk, pv⟩ := p
      intro h
      by_cases hpk : k = pk
      · subst hpk
        simp [List.lookup] at h
      · have hkp : (k == pk) = false := beq_eq_false_iff_ne.mpr hpk
        simp only [List.lookup, hkp] at h
        simp only [List.cons_append, List.lookup, hkp]
        exact ih h

theorem lookup_dictSet {β : Type _} (m : List (String × β)) (k : String) (v : β) :
    (dictSet m k v).lookup k = some v := by
  unfold dictSet
  by_cases h : (m.lookup k).isSome
  · rw [if_pos h]
    exact lookup_map_replace k v m h
  · rw [if_neg h]
    refine lookup_append_single k v m ?_
    cases hm : m.lookup k with
    | none => rfl
    | some b => rw [hm] at h; simp at h

theorem storeGet_put (st : Store) (dataset_id : String) (df : Df)
    (name : Option String) :
    storeGet (put_dataframe st dataset_id df name).2 dataset_id = .ok df := by
  unfold storeGet put_dataframe
  rw [lookup_dictSet]

theorem recordCols_nodup (records : List (List (String × Cell))) :
    (recordCols records).Nodup := by
  unfold recordCols
  suffices h : ∀ acc : List String, acc.Nodup →
      (records.foldl (fun acc r => (r.map Prod.fst).foldl insertNew acc) acc).Nodup by
    exact h [] List.nodup_nil
  induction records with
  | nil => exact fun _ h => h
  | cons r rs ih =>
      intro acc hacc
      exact ih _ (nodup_foldl_insertNew (r.map Prod.fst) acc hacc)

theorem mem_recordCols (records : List (List (String × Cell))) (c : String) :
    c ∈ recordCols records ↔ ∃ r ∈ records, c ∈ r.map Prod.fst := by
  unfold recordCols
  suffices h : ∀ acc : List String,
      (c ∈ records.foldl (fun acc r => (r.map Prod.fst).foldl insertNew acc) acc ↔
        c ∈ acc ∨ ∃ r ∈ records, c ∈ r.map Prod.fst) by
    simpa using h []
  induction records with
  | nil => intro acc; simp
  | cons r rs ih =>
      intro acc
      simp only [List.foldl_cons]
      rw [ih, mem_foldl_insertNew]
      constructor
      · rintro (h | h)
        · rcases h with h | h
          · exact Or.inl h
          · exact Or.inr ⟨r, List.mem_cons_self r rs, h⟩
        · obtain ⟨r2, hr2, hc⟩ := h
          exact Or.inr ⟨r2, List.mem_cons_of_mem r hr2, hc⟩
      · rintro (h | ⟨r2, hr2, hc⟩)
        · exact Or.inl (Or.inl h)
        · rcases List.mem_cons.mp hr2 with rfl | hr3
          · exact Or.inl (Or.inr hc)
          · exact Or.inr ⟨r2, hr3, hc⟩

/-- C3 (amended): `put_records` itself never fails — on an empty record
sequence it stores an empty 0-row dataset and returns its metadata (one
row per record in general); the empty-input rejection lives in the
`ingest_json` route, which answers HTTP 400 before calling the store and
otherwise returns the store result. -/
theorem claim3_amended_validation_in_route
    (st : Store) (dataset_id : String) (records : List (List (String × Cell)))
    (name : Option String) :
    ((put_records st dataset_id records name).1.rows = records.length) ∧
    (records = [] → ingest_json st dataset_id records name = .error .http400) ∧
    (records ≠ [] → ingest_json st dataset_id records name
      = .ok (put_records st dataset_id records name)) := by
  refine ⟨?_, ?_, ?_⟩
  · unfold put_records put_dataframe from_records
    simp
  · intro h
    unfold ingest_json
    rw [if_pos h]
  · intro h
    unfold ingest_json
    rw [if_neg h]

/-- C3 counterexample: `put_records` on the empty record sequence does not
fail with a ValidationError — it succeeds, storing a 0-row, 0-column
dataset and returning its metadata, and the id resolves afterwards. -/
theorem claim3_counterexample :
    put_records emptyStore "d1" [] none
      = (⟨"d1", "d1", 0, []⟩, ⟨[("d1", ⟨[], []⟩)], [("d1", "d1")]⟩) ∧
    storeGet (put_records emptyStore "d1" [] none).2 "d1" = .ok ⟨[], []⟩ :=
  ⟨rfl, rfl⟩

/-- Witness for the amended C3: the route rejects empty input with 400 and
accepts a non-empty record list. -/
theorem claim3_witness :
    ingest_json emptyStore "d1" [] none = .error .http400 ∧
    ingest_json emptyStore "d2" [[("a", Cell.num 1)]] none
      = .ok (put_records emptyStore "d2" [[("a", Cell.num 1)]] none) :=
  ⟨(claim3_amended_validation_in_route emptyStore "d1" [] none).2.1 rfl,
   (claim3_amended_validation_in_route emptyStore "d2" [[("a", Cell.num 1)]] none).2.2
     (by decide)⟩

/-- C7: round-trip — `put_records` on a non-empty record sequence followed
by `store.get` with the returned dataset id yields the stored dataset: one
row per record, and columns equal to the union of the records' keys in
first-seen order (duplicate-free; a name is a column iff some record
carries it). -/
theorem claim7_roundtrip
    (st : Store) (dataset_id : String) (records : List (List (String × Cell)))
    (name : Option String) (_hne : records ≠ []) :
    storeGet (put_records st dataset_id records name).2
        (put_records st dataset_id records name).1.dataset_id
      = .ok (from_records records) ∧
    (from_records records).rows.length = records.length ∧
    (from_records records).cols = recordCols records ∧
    (from_records records).cols.Nodup ∧
    (∀ c, c ∈ (from_records records).cols ↔ ∃ r ∈ records, c ∈ r.map Prod.fst) := by
  refine ⟨?_, ?_, rfl, recordCols_nodup records, fun c => mem_recordCols records c⟩
  · exact storeGet_put st dataset_id (from_records records) name
  · unfold from_records
    simp

/-- Witness for C7 on two concrete records with overlapping keys. -/
theorem claim7_witness :
    storeGet (put_records emptyStore "d3"
        [[("a", Cell.num 1)], [("b", Cell.num 2), ("a", Cell.num 3)]] none).2
        (put_records emptyStore "d3"
          [[("a", Cell.num 1)], [("b", Cell.num 2), ("a", Cell.num 3)]] none).1.dataset_id
      = .ok (from_records [[("a", Cell.num 1)], [("b", Cell.num 2), ("a", Cell.num 3)]]) ∧
    (from_records [[("a", Cell.num 1)],
        [("b", Cell.num 2), ("a", Cell.num 3)]]).rows.length
      = [[("a", Cell.num 1)], [("b", Cell.num 2), ("a", Cell.num 3)]].length ∧
    (from_records [[("a", Cell.num 1)], [("b", Cell.num 2), ("a", Cell.num 3)]]).cols
      = recordCols [[("a", Cell.num 1)], [("b", Cell.num 2), ("a", Cell.num 3)]] ∧
    (from_records [[("a", Cell.num 1)],
        [("b", Cell.num 2), ("a", Cell.num 3)]]).cols.Nodup ∧
    (∀ c, c ∈ (from_records [[("a", Cell.num 1)],
        [("b", Cell.num 2), ("a", Cell.num 3)]]).cols ↔
      ∃ r ∈ [[("a", Cell.num 1)], [("b", Cell.num 2), ("a", Cell.num 3)]],
        c ∈ r.map Prod.fst) :=
  claim7_roundtrip emptyStore "d3"
    [[("a", Cell.num 1)], [("b", Cell.num 2), ("a", Cell.num 3)]] none (by decide)

/-! ### `trends`: C8 -/

theorem strLTb_irrefl (s : String) : strLTb s s = false := by
  cases h : strLTb s s
  · rfl
  · have hfalse := strLTb_asym s s h
    rw [h] at hfalse
    exact hfalse

theorem strLTb_compTrans (a b c : String)
    (h1 : strLTb b a = false) (h2 : strLTb c b = false) : strLTb c a = false := by
  cases hca : strLTb c a
  · rfl
  · exfalso
    cases hbc : strLTb b c
    · have hbceq : b = c := strLTb_eq_of_not b c hbc h2
      subst hbceq
      simp [hca] at h1
    · have := strLTb_trans b c a hbc hca
      simp [this] at h1

theorem keyLTb_irrefl (k : Cell) : keyLTb k k = false := by
  cases h : keyLTb k k
  · rfl
  · have hfalse := keyLTb_asym k k h
    rw [h] at hfalse
    exact hfalse

theorem trendRowLTb_iff (a b : TrendRow) :
    trendRowLTb a b = true ↔
      strLTb a.date b.date = true ∨ (a.date = b.date ∧ keyLTb a.region b.region = true) := by
  simp [trendRowLTb, Bool.or_eq_true, Bool.and_eq_true, decide_eq_true_eq]

theorem trendRowLTb_asym (a b : TrendRow) (h : trendRowLTb a b = true) :
    trendRowLTb b a = false := by
  cases hba : trendRowLTb b a
  · rfl
  · exfalso
    rw [trendRowLTb_iff] at h hba
    rcases h with h1 | ⟨heq, hk⟩
    · rcases hba with h2 | ⟨heq2, _⟩
      · have := strLTb_asym _ _ h1
        simp [this] at h2
      · rw [heq2] at h1
        simp [strLTb_irrefl] at h1
    · rcases hba with h2 | ⟨_, hk2⟩
      · rw [heq] at h2
        simp [strLTb_irrefl] at h2
      · have := keyLTb_asym _ _ hk
        simp [this] at hk2

theorem trendRowLTb_compTrans (a b c : TrendRow)
    (h1 : trendRowLTb b a = false) (h2 : trendRowLTb c b = false) :
    trendRowLTb c a = false := by
  have h1a : strLTb b.date a.date = false := by
    cases hx : strLTb b.date a.date
    · rfl
    · exfalso
      have : trendRowLTb b a = true := (trendRowLTb_iff b a).mpr (Or.inl hx)
      simp [this] at h1
  have h1b : b.date = a.date → keyLTb b.region a.region = false := by
    intro heq
    cases hx : keyLTb b.region a.region
    · rfl
    · exfalso
      have : trendRowLTb b a = true := (trendRowLTb_iff b a).mpr (Or.inr ⟨heq, hx⟩)
      simp [this] at h1
  have h2a : strLTb c.date b.date = false := by
    cases hx : strLTb c.date b.date
    · rfl
    · exfalso
      have : trendRowLTb c b = true := (trendRowLTb_iff c b).mpr (Or.inl hx)
      simp [this] at h2
  have h2b : c.date = b.date → keyLTb c.region b.region = false := by
    intro heq
    cases hx : keyLTb c.region b.region
    · rfl
    · exfalso
      have : trendRowLTb c b = true := (trendRowLTb_iff c b).mpr (Or.inr ⟨heq, hx⟩)
      simp [this] at h2
  have g1 : strLTb c.date a.date = false := strLTb_compTrans a.date b.date c.date h1a h2a
  cases hca : trendRowLTb c a
  · rfl
  · exfalso
    rw [trendRowLTb_iff] at hca
    rcases hca with hx | ⟨heq, hk⟩
    · simp [g1] at hx
    · have hab : strLTb a.date b.date = false := by
        cases hx : strLTb a.date b.date
        · rfl
        · exfalso
          rw [← heq] at hx
          simp [h2a] at hx
      have hbaeq : b.date = a.date := strLTb_eq_of_not _ _ h1a hab
      have hcbeq : c.date = b.date := by rw [heq, hbaeq]
      have hk1 := h1b hbaeq
      have hk2 := h2b hcbeq
      have := keyLTb_compTrans a.region b.region c.region hk1 hk2
      simp [this] at hk

theorem mapOpt_mem {α β : Type _} (f : α → Option β) :
    ∀ {l : List α} {res : List β}, mapOpt f l = some res →
      ∀ b ∈ res, ∃ a ∈ l, f a = some b := by
  intro l
  induction l with
  | nil =>
      intro res h b hb
      injection h with h
      subst h
      simp at hb
  | cons x xs ih =>
      intro res h b hb
      simp only [mapOpt] at h
      cases hF : f x with
      | none => rw [hF] at h; exact absurd h (by simp)
      | some y =>
          rw [hF] at h
          cases hm : mapOpt f xs with
          | none => rw [hm] at h; exact absurd h (by simp)
          | some ys =>
              rw [hm] at h
              injection h with h
              subst h
              rcases List.mem_cons.mp hb with rfl | hb2
              · exact ⟨x, List.mem_cons_self x xs, hF⟩
              · obtain ⟨a, ha, hfa⟩ := ih hm b hb2
                exact ⟨a, List.mem_cons_of_mem x ha, hfa⟩

theorem parseDate_month_range {s : String} {ymd : ℕ × ℕ × ℕ}
    (h : parseDate s = some ymd) : 1 ≤ ymd.2.1 ∧ ymd.2.1 ≤ 12 := by
  unfold parseDate at h
  split at h
  · split at h
    · split at h
      · rename_i hvalid
        injection h with h
        subst h
        exact ⟨hvalid.1, hvalid.2.1⟩
      · exact absurd h (by simp)
    · exact absurd h (by simp)
  · exact absurd h (by simp)

theorem cellDate_month_range {c : Cell} {ymd : ℕ × ℕ × ℕ}
    (h : cellDate c = some ymd) : 1 ≤ ymd.2.1 ∧ ymd.2.1 ≤ 12 := by
  cases c with
  | str s => exact parseDate_month_range h
  | null => exact absurd h (by simp [cellDate])
  | num q => exact absurd h (by simp [cellDate])

theorem trends_ok_elim {df : Df} {dc rc vc : String} {agg : Agg} {freq : String}
    {names : List String} {rows : List TrendRow}
    (h : trends df dc rc vc agg freq = .ok (names, rows)) :
    ¬(dc = rc ∨ dc = vc ∨ rc = vc) ∧
    ∃ reducedT, trendReduced df dc rc vc agg = some reducedT ∧
      (trendsNames dc rc vc).count "__bucket__" = 1 ∧
      names = (trendsNames dc rc vc).filter (fun n => decide (n ≠ "__bucket__"))
        ++ ["date"] ∧
      rows = sortLt trendRowLTb (reducedT.map trendRowOf) := by
  unfold trends at h
  split at h
  · split at h
    · exact absurd h (by simp)
    · rename_i hdist
      split at h
      · exact absurd h (by simp)
      · split at h
        · exact absurd h (by simp)
        · rename_i reducedT hred
          by_cases hcount : (trendsNames dc rc vc).count "__bucket__" ≠ 1
          · rw [if_pos hcount] at h
            exact absurd h (by simp)
          · rw [if_neg hcount] at h
            by_cases hhom : sortHomogeneous (reducedT.map (fun p => p.1.2)) = true
            · rw [if_pos hhom] at h
              injection h with h
              obtain ⟨hnames, hrows⟩ := Prod.mk.injEq .. ▸ h.symm
              refine ⟨hdist, reducedT, hred, by omega, hnames, hrows⟩
            · rw [if_neg hhom] at h
              exact absurd h (by simp)
  · exact absurd h (by simp)

theorem trendsNames_eval (dc rc vc : String)
    (h1 : dc ≠ rc) (h2 : dc ≠ vc) (h3 : rc ≠ vc) :
    trendsNames dc rc vc =
      ["__bucket__",
       if "region" = dc then "__bucket__" else "region",
       if "value" = dc then "__bucket__" else "value"] := by
  unfold trendsNames
  simp only [List.map_cons, List.map_nil]
  rw [if_neg h1, if_neg h2, if_neg (fun he : vc = rc => h3 he.symm)]
  simp

/-- C8 (amended): whenever `trends` produces output — which it does for all
pairwise-distinct column choices with `date_col` not named `"region"` or
`"value"`, including the colliding choice `date_col = "date"` — the output
field names are exactly `region`, `value`, `date`; every `date` is the ISO
calendar date string of a month-end bucket (no time component); and the
rows are sorted ascending by `(date, region)`.  When `date_col` is
`"region"` or `"value"` the rename step duplicates the internal bucket
column and `trends` raises instead (see the counterexample). -/
theorem claim8_amended_trends_output
    (df : Df) (dc rc vc : String) (agg : Agg) (freq : String)
    (names : List String) (rows : List TrendRow)
    (h : trends df dc rc vc agg freq = .ok (names, rows)) :
    names = ["region", "value", "date"] ∧
    (∀ t ∈ rows, ∃ y m : ℕ, 1 ≤ m ∧ m ≤ 12 ∧
      t.date = isoDateStr y m (daysInMonth y m)) ∧
    rows.Pairwise (fun a b => strLTb b.date a.date = false ∧
      (b.date = a.date → keyLTb b.region a.region = false)) := by
  obtain ⟨hdist, reducedT, hred, hcount, hnames, hrows⟩ := trends_ok_elim h
  push_neg at hdist
  obtain ⟨h1, h2, h3⟩ := hdist
  have hn2 := trendsNames_eval dc rc vc h1 h2 h3
  unfold trendReduced at hred
  refine ⟨?_, ?_, ?_⟩
  · rw [hn2] at hcount
    by_cases hrd : "region" = dc
    · rw [if_pos hrd] at hcount
      by_cases hvd : "value" = dc
      · rw [if_pos hvd] at hcount
        exact absurd hcount (by decide)
      · rw [if_neg hvd] at hcount
        exact absurd hcount (by decide)
    · rw [if_neg hrd] at hcount
      by_cases hvd : "value" = dc
      · rw [if_pos hvd] at hcount
        exact absurd hcount (by decide)
      · rw [if_neg hvd] at hcount
        rw [hnames, hn2, if_neg hrd, if_neg hvd]
        rfl
  · intro t ht
    rw [hrows, mem_sortLt] at ht
    obtain ⟨p, hp, rfl⟩ := List.mem_map.mp ht
    have hm : 1 ≤ p.1.1.2 ∧ p.1.1.2 ≤ 12 := by
      obtain ⟨g, hg, hfg⟩ := mapOpt_mem _ hred p hp
      have hp1 : p.1 = g.1 := by
        cases ha : pandasAgg true agg (g.2.map (fun t => Cell.num t.2)) with
        | none => rw [ha] at hfg; exact absurd hfg (by simp)
        | some c =>
            rw [ha] at hfg
            cases c with
            | num q =>
                injection hfg with hfg
                rw [← hfg]
            | null => exact absurd hfg (by simp)
            | str s2 => exact absurd hfg (by simp)
      rcases g with ⟨key, grp⟩
      obtain ⟨hkey, -⟩ := (mem_groupsBy trendKeyLTb Prod.fst
        (trendParsed df dc rc vc) key grp).mp hg
      rw [mem_firstSeen] at hkey
      obtain ⟨tr, htr, hkeq⟩ := List.mem_map.mp hkey
      unfold trendParsed at htr
      obtain ⟨r, hr, hsome⟩ := List.mem_filterMap.mp htr
      cases hcd : cellDate (rowCell df dc r) with
      | none => rw [hcd] at hsome; exact absurd hsome (by simp)
      | some ymd =>
          cases htn : toNumeric (rowCell df vc r) with
          | none => rw [hcd, htn] at hsome; exact absurd hsome (by simp)
          | some v0 =>
              rw [hcd, htn] at hsome
              injection hsome with hsome
              have hrange := cellDate_month_range hcd
              have hkey2 : p.1.1 = (ymd.1, ymd.2.1) := by
                rw [hp1, ← hkeq, ← hsome]
              rw [hkey2]
              exact ⟨hrange.1, hrange.2⟩
    exact ⟨p.1.1.1, p.1.1.2, hm.1, hm.2, rfl⟩
  · rw [hrows]
    have hp := pairwise_sortLt trendRowLTb trendRowLTb_asym trendRowLTb_compTrans
      (reducedT.map trendRowOf)
    refine hp.imp (fun {a b} hba => ?_)
    constructor
    · cases hx : strLTb b.date a.date
      · rfl
      · exfalso
        have hgt : trendRowLTb b a = true := (trendRowLTb_iff b a).mpr (Or.inl hx)
        simp [hgt] at hba
    · intro heq
      cases hx : keyLTb b.region a.region
      · rfl
      · exfalso
        have hgt : trendRowLTb b a = true :=
          (trendRowLTb_iff b a).mpr (Or.inr ⟨heq, hx⟩)
        simp [hgt] at hba

/-- C8 counterexample: choosing `date_col = "value"` — a collision with an
output field name, which the claim says must still work — makes the second
rename produce two `__bucket__` columns, so `out["__bucket__"]` is a frame
without `.dt` and `trends` raises instead of producing output. -/
theorem claim8_counterexample :
    trends dfCollide "value" "r" "v2" Agg.sum "M" = .error .attributeError := rfl

/-- Witness for the amended C8 on a concrete dataset with the colliding
choice `date_col = "date"`. -/
theorem claim8_witness :
    (["region", "value", "date"] : List String) = ["region", "value", "date"] ∧
    (∀ t ∈ [TrendRow.mk "2025-01-31" (Cell.str "A") 100,
            TrendRow.mk "2025-01-31" (Cell.str "B") 90,
            TrendRow.mk "2025-02-28" (Cell.str "A") 150],
      ∃ y m : ℕ, 1 ≤ m ∧ m ≤ 12 ∧ t.date = isoDateStr y m (daysInMonth y m)) ∧
    ([TrendRow.mk "2025-01-31" (Cell.str "A") 100,
      TrendRow.mk "2025-01-31" (Cell.str "B") 90,
      TrendRow.mk "2025-02-28" (Cell.str "A") 150].Pairwise
        (fun a b => strLTb b.date a.date = false ∧
          (b.date = a.date → keyLTb b.region a.region = false))) :=
  claim8_amended_trends_output dfTrend "date" "r" "v" Agg.sum "M"
    ["region", "value", "date"]
    [TrendRow.mk "2025-01-31" (Cell.str "A") 100,
     TrendRow.mk "2025-01-31" (Cell.str "B") 90,
     TrendRow.mk "2025-02-28" (Cell.str "A") 150] (by rfl)

end RAD
